import Mathlib

/-!
Verification development for the `orm1` persistence layer
(`src/orm1/__init__.py`).  Python runtime values, the SQL AST, the
renderer, the fragment parser, the mapping builder projections, the
aggregate save/delete/get engine, the transaction wrapper and the cursor
predicate are shallowly embedded; the theorems at the end of the file
settle the specification claims against these definitions.
-/

set_option maxHeartbeats 1000000
set_option maxRecDepth 4000

namespace Orm1

/-- A Python runtime value as it appears in rows, keys and parameter maps.
`vnull` models Python `None` / SQL NULL. -/
inductive Value where
  | vnull : Value
  | vint : Int → Value
  | vstr : String → Value
  | vbool : Bool → Value
  deriving DecidableEq, Repr

/-- `Key` — an ordered tuple of column values (Python class `Key`,
a tuple subclass). -/
abbrev Key := List Value

/-- A parameter identifier: the engine uses column-name strings as param
ids, the query builder uses integers allocated by `SQLBuildingContext`
(`new_param_id`). -/
inductive PId where
  | pstr : String → PId
  | pnum : Nat → PId
  deriving DecidableEq, Repr

/-- The SQL AST (the `sql_*` NamedTuples of the source, a closed sum). -/
inductive SQL where
  | n : String → SQL
  | qn : String → String → SQL
  | text : String → SQL
  | param : PId → SQL
  | all : List SQL → SQL
  | any : List SQL → SQL
  | eq : SQL → SQL → SQL
  | lt : SQL → SQL → SQL
  | gt : SQL → SQL → SQL
  | isNull : SQL → SQL
  | isNotNull : SQL → SQL
  | fragment : List SQL → SQL

/-- Rendering state: `SQLRenderingContext._param_locs`, an
insertion-ordered map from param id to positional slot, modelled as the
list of param ids in insertion order (the slot of an id is its index). -/
abbrev RState := List PId

/-- Position of a param id in the rendering state, if present. -/
def posOf : RState → PId → Option Nat
  | [], _ => none
  | p :: ps, q => if p = q then some 0 else (posOf ps q).map (· + 1)

/-- `SQLRenderingContext.locate_param`: `self._param_locs.setdefault(id,
len(self._param_locs))` — returns the existing slot, or allocates the
next slot for a new id. -/
def locateParam (st : RState) (id : PId) : Nat × RState :=
  match posOf st id with
  | some k => (k, st)
  | none => (st.length, st ++ [id])

/-- Python `s.replace(".", '"."')` as used on identifier parts. -/
def replaceDots (s : String) : String :=
  String.mk (s.data.flatMap fun c => if c = '.' then ['"', '.', '"'] else [c])

/-- Python `s.replace('"', '""')` (quote doubling). -/
def doubleQuotes (s : String) : String :=
  String.mk (s.data.flatMap fun c => if c = '"' then ['"', '"'] else [c])

mutual
/-- `AsyncPGSessionBackend.Renderer._el`: renders one AST node, threading
the param-location state.  Faithful to the source: the `sql_n` branch
only splits dots (`part1.replace(".", '"."')`) and does NOT double
embedded quotes; only the second component of `sql_qn` doubles quotes. -/
def elR : SQL → RState → String × RState
  | SQL.n part1, st => ("\"" ++ replaceDots part1 ++ "\"", st)
  | SQL.qn part1 part2, st =>
      ("\"" ++ replaceDots part1 ++ "\"" ++ "." ++ "\"" ++ doubleQuotes part2 ++ "\"", st)
  | SQL.text t, st => (t, st)
  | SQL.param id, st =>
      let (k, st') := locateParam st id
      ("$" ++ toString (k + 1), st')
  | SQL.all els, st =>
      let (rs, st') := elRList els st
      ("(" ++ String.intercalate " AND " rs ++ ")", st')
  | SQL.any els, st =>
      let (rs, st') := elRList els st
      ("(" ++ String.intercalate " OR " rs ++ ")", st')
  | SQL.eq l r, st =>
      let (ls, st1) := elR l st
      let (rs, st2) := elR r st1
      ("(" ++ ls ++ " = " ++ rs ++ ")", st2)
  | SQL.lt l r, st =>
      let (ls, st1) := elR l st
      let (rs, st2) := elR r st1
      ("(" ++ ls ++ " < " ++ rs ++ ")", st2)
  | SQL.gt l r, st =>
      let (ls, st1) := elR l st
      let (rs, st2) := elR r st1
      ("(" ++ ls ++ " > " ++ rs ++ ")", st2)
  | SQL.isNull x, st =>
      let (xs, st') := elR x st
      ("(" ++ xs ++ " IS NULL)", st')
  | SQL.isNotNull x, st =>
      let (xs, st') := elR x st
      ("(" ++ xs ++ " IS NOT NULL)", st')
  | SQL.fragment els, st =>
      let (rs, st') := elRList els st
      (String.join rs, st')

/-- Renders a list of AST nodes left to right, threading state; returns
the list of rendered strings. -/
def elRList : List SQL → RState → List String × RState
  | [], st => ([], st)
  | e :: es, st =>
      let (s, st1) := elR e st
      let (ss, st2) := elRList es st1
      (s :: ss, st2)
end

/-! ## Fragment tokenizer and parser (`SQLBuildingContext`) -/

/-- Python `\w` (ASCII fragment): letters, digits, underscore. -/
def isWordC (c : Char) : Bool := c.isAlphanum || c = '_'

/-- Python `\s`. -/
def isSpaceC (c : Char) : Bool := c.isWhitespace

/-- Scans for the closing quote `q`; returns the body (without quotes)
and the rest after the closing quote, or `none` when unterminated. -/
def splitQuoted (q : Char) : List Char → Option (List Char × List Char)
  | [] => none
  | c :: cs =>
      if c = q then some ([], cs)
      else (splitQuoted q cs).map fun p => (c :: p.1, p.2)

/-- One `findall` pass of `_patt_word =
('[^']*'|"[^"]*"|\s+|::|:\w+|\w+|[^\w\s])`: quoted strings, whitespace
runs, the `::` cast, `:name` placeholders, word runs, or any other single
character.  A character matched by no longer alternative falls through to
the single-character class.  Fuel decreases once per token; every token
consumes at least one character, so `length + 1` fuel never runs out. -/
def tokenizeGo : Nat → List Char → List String
  | 0, _ => []
  | _, [] => []
  | fuel + 1, c :: cs =>
      if c = '\'' ∨ c = '"' then
        match splitQuoted c cs with
        | some (body, rest) => String.mk (c :: (body ++ [c])) :: tokenizeGo fuel rest
        | none => String.mk [c] :: tokenizeGo fuel cs
      else if isSpaceC c then
        let sp := cs.takeWhile isSpaceC
        String.mk (c :: sp) :: tokenizeGo fuel (cs.dropWhile isSpaceC)
      else if c = ':' then
        match cs with
        | ':' :: rest => "::" :: tokenizeGo fuel rest
        | d :: rest =>
            if isWordC d then
              let w := rest.takeWhile isWordC
              String.mk (':' :: d :: w) :: tokenizeGo fuel (rest.dropWhile isWordC)
            else String.mk [c] :: tokenizeGo fuel (d :: rest)
        | [] => String.mk [c] :: tokenizeGo fuel []
      else if isWordC c then
        let w := cs.takeWhile isWordC
        String.mk (c :: w) :: tokenizeGo fuel (cs.dropWhile isWordC)
      else String.mk [c] :: tokenizeGo fuel cs

/-- `self._patt_word.findall(sql)`. -/
def tokenize (s : String) : List String := tokenizeGo (s.length + 1) s.data

/-- `self._patt_param.match(word)` for `_patt_param = :(\w+)`: a prefix
match, returning the placeholder name. -/
def paramTokenName (w : String) : Option String :=
  match w.data with
  | ':' :: c :: rest => if isWordC c then some (String.mk (c :: rest.takeWhile isWordC)) else none
  | [':'] => none
  | _ => none

/-- Association-list lookup (first binding wins), the dict lookup used
throughout the model. -/
def alookup {α β : Type} [DecidableEq α] : List (α × β) → α → Option β
  | [], _ => none
  | (k, v) :: ps, x => if k = x then some v else alookup ps x

/-- Dict assignment: replaces the first binding of the key in place, or
appends a new binding (Python dict insertion-order semantics). -/
def aset {α β : Type} [DecidableEq α] : List (α × β) → α → β → List (α × β)
  | [], k, v => [(k, v)]
  | (k', v') :: ps, k, v => if k' = k then (k, v) :: ps else (k', v') :: aset ps k v

/-- The loop body of `SQLBuildingContext.parse` over the token list.
State: the param pointer, `param_index_map` (name → ParamId) and the
produced `param_map` (ParamId → value).  An unknown placeholder name
fails (the `assert param_name in params` of the source). -/
def parseGo (params : List (String × Value)) :
    List String → Nat → List (String × Nat) → List (Nat × Value) →
    Except String (List SQL × List (String × Nat) × List (Nat × Value) × Nat)
  | [], ptr, idx, pm => .ok ([], idx, pm, ptr)
  | w :: ws, ptr, idx, pm =>
      match paramTokenName w with
      | none =>
          match parseGo params ws ptr idx pm with
          | .error e => .error e
          | .ok (ts, idx', pm', ptr') => .ok (SQL.text w :: ts, idx', pm', ptr')
      | some name =>
          match alookup params name with
          | none => .error name
          | some v =>
              match alookup idx name with
              | some pid =>
                  match parseGo params ws ptr idx pm with
                  | .error e => .error e
                  | .ok (ts, idx', pm', ptr') => .ok (SQL.param (.pnum pid) :: ts, idx', pm', ptr')
              | none =>
                  match parseGo params ws (ptr + 1) (idx ++ [(name, ptr)]) (pm ++ [(ptr, v)]) with
                  | .error e => .error e
                  | .ok (ts, idx', pm', ptr') => .ok (SQL.param (.pnum ptr) :: ts, idx', pm', ptr')

/-- `SQLBuildingContext.parse`: tokenizes, maps placeholders to shared
param ids, and returns the fragment with the produced param map and the
advanced pointer. -/
def parseFragment (start : Nat) (s : String) (params : List (String × Value)) :
    Except String (SQL × List (Nat × Value) × Nat) :=
  match parseGo params (tokenize s) start [] [] with
  | .error e => .error e
  | .ok (ts, _, pm, ptr) => .ok (SQL.fragment ts, pm, ptr)

/-- A raw-query backend event (`SessionBackend.fetch_raw`). -/
inductive RawEvent where
  | fetchRaw (frag : SQL) (pm : List (Nat × Value))

/-- `SessionRawQuery.__init__` followed by `fetch`: construction parses
the query (raising on a missing parameter before anything reaches the
backend); only a successful parse sends `fetch_raw`. -/
def rawQueryEvents (s : String) (params : List (String × Value)) : List RawEvent :=
  match parseFragment 0 s params with
  | .error _ => []
  | .ok (frag, pm, _) => [RawEvent.fetchRaw frag pm]

/-! ## AutoMappingBuilder projections -/

/-- The per-field options of `AutoMappingBuilder.FieldConfig`. -/
structure FieldConfig where
  column : Option String := none
  skip_on_insert : Bool := false
  skip_on_update : Bool := false
  deriving DecidableEq, Repr

/-- The projection lists computed by
`AutoMappingBuilder._build_entity_mapping` (source lines 950–955). -/
structure Projections where
  skip_on_insert : List String
  skip_on_update : List String
  key : List String
  full : List String
  insertable : List String
  updatable : List String
  deriving DecidableEq, Repr

/-- `_build_entity_mapping`'s projection computation, over the final
`field_configs` (in `fields`-dict iteration order) and the declared
primary/parental key field names. -/
def buildProjections (field_configs : List (String × FieldConfig))
    (primary parental : List String) : Projections :=
  let fieldNames := field_configs.map Prod.fst
  let soi := (field_configs.filter fun fc => fc.2.skip_on_insert).map Prod.fst
  let sou := (field_configs.filter fun fc => fc.2.skip_on_update).map Prod.fst
  let key := primary ++ parental
  let full := key ++ fieldNames.filter (fun fn => ¬ fn ∈ key)
  let insertable := fieldNames.filter fun fn => fn ∈ parental ∨ ¬ fn ∈ soi
  let updatable := fieldNames.filter fun fn => ¬ (fn ∈ sou ∨ fn ∈ primary ∨ fn ∈ parental)
  ⟨soi, sou, key, full, insertable, updatable⟩

/-- The `updatable` projection as claim C9 words it: excludes only
primary-key fields and skip-on-update fields (parental-key fields are
retained). -/
def updatableClaim (field_configs : List (String × FieldConfig))
    (primary : List String) : List String :=
  let fieldNames := field_configs.map Prod.fst
  let sou := (field_configs.filter fun fc => fc.2.skip_on_update).map Prod.fst
  fieldNames.filter fun fn => ¬ fn ∈ primary ∧ ¬ fn ∈ sou

/-! ## Keys (`Key.from_key_like`) -/

/-- A `KeyLike` argument: either one hashable value or a sequence of
them. -/
inductive KeyLike where
  | single : Value → KeyLike
  | seq : List Value → KeyLike
  deriving DecidableEq, Repr

/-- `isinstance(key_like, Sequence)`: Python lists/tuples are Sequences —
and so are strings. -/
def isSequenceKL : KeyLike → Bool
  | .single (.vstr _) => true
  | .seq _ => true
  | .single _ => false

/-- `tuple(key_like)` for a Sequence argument; iterating a Python string
yields its one-character strings. -/
def seqElems : KeyLike → List Value
  | .single (.vstr s) => s.data.map fun c => Value.vstr (String.mk [c])
  | .seq vs => vs
  | .single v => [v]

/-- `Key.from_key_like`: `cls(key_like) if isinstance(key_like, Sequence)
else cls((key_like,))`. -/
def from_key_like (k : KeyLike) : Key :=
  if isSequenceKL k then seqElems k
  else match k with
       | .single v => [v]
       | .seq vs => vs

/-- The key list `Session.batch_get` builds from its `ids` argument
(source line 242). -/
def batchGetKeys (ids : List KeyLike) : List Key := ids.map from_key_like

/-! ## Cursor predicate (`Session._format_cursor_predicate`) -/

/-- `SQLSelect.OrderBy`. -/
structure OrderBy where
  expr : SQL
  ascending : Bool := true
  nulls_last : Bool := true

/-- `Session._format_cursor_predicate`: the OR over `i` of the AND over
`j ≤ i` of per-column comparison/null disjuncts.  `param_refs` is
`[sql_param(i) for i in params]` (the cursor row's parameter references
in insertion order); out-of-range access (impossible at the call sites,
where one param exists per order entry) is modelled with a default. -/
def formatCursorPredicate (order_bys : List OrderBy) (param_refs : List SQL)
    (forward : Bool) : SQL :=
  SQL.any ((List.range order_bys.length).map fun i =>
    SQL.all (((order_bys.take (i + 1)).enum).map fun js =>
      let j := js.1
      let sort := js.2
      let v := param_refs.getD j (SQL.text "")
      let comp :=
        if i ≠ j then SQL.eq v sort.expr
        else if sort.ascending = forward then SQL.lt v sort.expr
        else SQL.gt v sort.expr
      let nul :=
        if i ≠ j then SQL.all [SQL.isNull v, SQL.isNull sort.expr]
        else if sort.nulls_last = forward then SQL.all [SQL.isNotNull v, SQL.isNull sort.expr]
        else SQL.all [SQL.isNull v, SQL.isNotNull sort.expr]
      SQL.any [comp, nul]))

/-- The cursor predicate exactly as claim C4 words it: on the decisive
column with direction opposite to the traversal, the comparison flips to
`>` AND the null-polarity disjunct is swapped. -/
def cursorPredicateClaim (order_bys : List OrderBy) (param_refs : List SQL)
    (forward : Bool) : SQL :=
  SQL.any ((List.range order_bys.length).map fun i =>
    SQL.all ((List.range (i + 1)).map fun j =>
      let sort := order_bys.getD j ⟨SQL.text "", true, true⟩
      let v := param_refs.getD j (SQL.text "")
      if j < i then
        SQL.any [SQL.eq v sort.expr, SQL.all [SQL.isNull v, SQL.isNull sort.expr]]
      else if sort.ascending = forward then
        SQL.any [SQL.lt v sort.expr,
          if sort.nulls_last = forward then SQL.all [SQL.isNotNull v, SQL.isNull sort.expr]
          else SQL.all [SQL.isNull v, SQL.isNotNull sort.expr]]
      else
        SQL.any [SQL.gt v sort.expr,
          if sort.nulls_last = forward then SQL.all [SQL.isNull v, SQL.isNotNull sort.expr]
          else SQL.all [SQL.isNotNull v, SQL.isNull sort.expr]]))

/-- The amended cursor predicate: like the claim, but on an
opposite-direction decisive column only the comparison flips to `>`; the
null-polarity disjunct is unchanged (it depends only on whether
nulls-last matches forward). -/
def cursorPredicateAmended (order_bys : List OrderBy) (param_refs : List SQL)
    (forward : Bool) : SQL :=
  SQL.any ((List.range order_bys.length).map fun i =>
    SQL.all ((List.range (i + 1)).map fun j =>
      let sort := order_bys.getD j ⟨SQL.text "", true, true⟩
      let v := param_refs.getD j (SQL.text "")
      if j < i then
        SQL.any [SQL.eq v sort.expr, SQL.all [SQL.isNull v, SQL.isNull sort.expr]]
      else if sort.ascending = forward then
        SQL.any [SQL.lt v sort.expr,
          if sort.nulls_last = forward then SQL.all [SQL.isNotNull v, SQL.isNull sort.expr]
          else SQL.all [SQL.isNull v, SQL.isNotNull sort.expr]]
      else
        SQL.any [SQL.gt v sort.expr,
          if sort.nulls_last = forward then SQL.all [SQL.isNotNull v, SQL.isNull sort.expr]
          else SQL.all [SQL.isNull v, SQL.isNotNull sort.expr]]))

/-! ## Entities, identity map and mappings -/

/-- `EntityIdentity`: `(entity_type, parental_key, primary_key)`; entity
types are identified by a numeric type id. -/
structure EId where
  typeId : Nat
  parental : Key
  primary : Key
  deriving DecidableEq, Repr

/-- The attribute record of one entity instance: named attributes
(`FieldAttributeAccessor` reads `getattr(entity, name, None)`) and the
child attachments per child name (`PluralChildAttributeAccessor`). -/
structure EntData where
  attrs : List (String × Value) := []
  kids : List (String × List Nat) := []
  deriving DecidableEq, Repr

/-- The heap of entity instances, referenced by numeric ids; `next` is
the id for the next `entity_factory.create()`. -/
structure Store where
  ents : List (Nat × EntData) := []
  next : Nat := 0
  deriving DecidableEq, Repr

def getEnt (st : Store) (e : Nat) : EntData := (alookup st.ents e).getD {}

/-- `getattr(entity, name, None)`. -/
def getAttr (st : Store) (e : Nat) (name : String) : Value :=
  (alookup (getEnt st e).attrs name).getD Value.vnull

/-- `setattr(entity, name, value)`. -/
def setAttr (st : Store) (e : Nat) (name : String) (v : Value) : Store :=
  { st with ents := aset st.ents e { getEnt st e with attrs := aset (getEnt st e).attrs name v } }

/-- Reading a child attribute (a sequence of child entities, `()` when
unset). -/
def getKids (st : Store) (e : Nat) (cname : String) : List Nat :=
  (alookup (getEnt st e).kids cname).getD []

/-- Writing a child attribute. -/
def setKids (st : Store) (e : Nat) (cname : String) (l : List Nat) : Store :=
  { st with ents := aset st.ents e { getEnt st e with kids := aset (getEnt st e).kids cname l } }

/-- `entity_factory.create()`: a fresh uninitialized instance. -/
def newEnt (st : Store) : Nat × Store :=
  (st.next, { ents := st.ents ++ [(st.next, {})], next := st.next + 1 })

/-- `EntityMapping`, with `children` carrying the resolved child mappings
(in the source the session registry resolves `child.target`; the tree is
resolved statically here). -/
inductive Mapping where
  | mk (typeId : Nat) (schema table : String)
      (fields : List (String × String))
      (children : List (String × Mapping))
      (primary_key parental_key insertable updatable key full : List String)

def Mapping.typeId : Mapping → Nat | .mk t _ _ _ _ _ _ _ _ _ _ => t
def Mapping.schema : Mapping → String | .mk _ s _ _ _ _ _ _ _ _ _ => s
def Mapping.table : Mapping → String | .mk _ _ t _ _ _ _ _ _ _ _ => t
def Mapping.fields : Mapping → List (String × String) | .mk _ _ _ f _ _ _ _ _ _ _ => f
def Mapping.children : Mapping → List (String × Mapping) | .mk _ _ _ _ c _ _ _ _ _ _ => c
def Mapping.primary_key : Mapping → List String | .mk _ _ _ _ _ p _ _ _ _ _ => p
def Mapping.parental_key : Mapping → List String | .mk _ _ _ _ _ _ p _ _ _ _ => p
def Mapping.insertable : Mapping → List String | .mk _ _ _ _ _ _ _ i _ _ _ => i
def Mapping.updatable : Mapping → List String | .mk _ _ _ _ _ _ _ _ u _ _ => u
def Mapping.key : Mapping → List String | .mk _ _ _ _ _ _ _ _ _ k _ => k
def Mapping.full : Mapping → List String | .mk _ _ _ _ _ _ _ _ _ _ f => f

/-- The column of a field name (`mapping.fields[fn].column`; total with a
defaulting lookup — the mapping invariant keeps every projection name in
`fields`). -/
def colOf (m : Mapping) (fn : String) : String := ((alookup m.fields fn).getD fn)

def colsOf (m : Mapping) (fns : List String) : List String := fns.map (colOf m)

/-- `primary_key_from_entity`. -/
def primaryKeyOf (m : Mapping) (st : Store) (e : Nat) : Key :=
  m.primary_key.map (getAttr st e)

/-- `parental_key_from_entity`. -/
def parentalKeyOf (m : Mapping) (st : Store) (e : Nat) : Key :=
  m.parental_key.map (getAttr st e)

/-- `identify_entity`. -/
def identifyEnt (m : Mapping) (st : Store) (e : Nat) : EId :=
  ⟨m.typeId, parentalKeyOf m st e, primaryKeyOf m st e⟩

/-- A result row: an ordered tuple matching the statement's projection. -/
abbrev Row := List Value

/-- `identify_row`: zips the `key` projection with the row prefix. -/
def identifyRow (m : Mapping) (row : Row) : EId :=
  let kvs := m.key.zip row
  ⟨m.typeId,
   m.parental_key.map fun f => (alookup kvs f).getD Value.vnull,
   m.primary_key.map fun f => (alookup kvs f).getD Value.vnull⟩

/-- `write_to_entity`: positional write of a row into the named fields. -/
def writeRow (st : Store) (e : Nat) (fns : List String) (row : List Value) : Store :=
  (fns.zip row).foldl (fun s p => setAttr s e p.1 p.2) st

/-- The identity map, flattened: Python buckets by
`(type, parental_key)`; the flat association list of identities keeps the
same observable operations. -/
abbrev IdMap := List (EId × Nat)

def idmTrack (idm : IdMap) (eid : EId) (e : Nat) : IdMap := aset idm eid e

def idmInTrack (idm : IdMap) (eid : EId) : Bool := (alookup idm eid).isSome

def idmGet (idm : IdMap) (eid : EId) : Option Nat := alookup idm eid

def idmUntrack (idm : IdMap) (eid : EId) : IdMap := idm.filter fun p => ¬ p.1 = eid

/-- `get_tracked_children(type, parental_key)`: the identities tracked in
the `(type, parental_key)` bucket. -/
def idmTrackedChildren (idm : IdMap) (t : Nat) (pk : Key) : List EId :=
  (idm.filter fun p => p.1.typeId = t ∧ p.1.parental = pk).map Prod.fst

/-! ## Statements and backend -/

/-- A parameter map (`ParamMap`): the engine keys by column name, the
query builder by allocated integer ids. -/
abbrev PMap := List (PId × Value)

structure Join where
  type : String
  table : SQL
  aliasName : SQL
  onC : SQL

/-- `SQLSelect`. -/
structure SelectStmt where
  select : List SQL
  from_table : SQL
  from_alias : SQL
  joins : List Join := []
  whereC : Option SQL := none
  order_bys : List OrderBy := []
  group_by : List SQL := []
  having : Option SQL := none
  limit : Option SQL := none
  offset : Option SQL := none

/-- `SQLInsert`. -/
structure InsertStmt where
  into_table : SQL
  insert : List SQL
  values : List SQL
  returning : List SQL

/-- `SQLUpdate`. -/
structure UpdateStmt where
  table : SQL
  sets : List (SQL × SQL)
  whereC : SQL
  returning : List SQL

/-- `SQLDelete`. -/
structure DeleteStmt where
  from_table : SQL
  whereC : SQL
  returning : List SQL

/-- One backend call: a statement plus its batch of parameter maps. -/
inductive Op where
  | select (stmt : SelectStmt) (pms : List PMap)
  | insert (stmt : InsertStmt) (pms : List PMap)
  | update (stmt : UpdateStmt) (pms : List PMap)
  | delete (stmt : DeleteStmt) (pms : List PMap)

/-- The backend as an oracle: the rows each call returns.  The engine
theorems hold for every oracle; the spec's backend contract is imposed as
a hypothesis where a claim needs it. -/
abbrev Backend := Op → List Row

/-- `ParamMap((f.column, f.accessor.get(e)) for f in fields)`. -/
def pmapOf (m : Mapping) (st : Store) (fns : List String) (e : Nat) : PMap :=
  fns.map fun fn => (PId.pstr (colOf m fn), getAttr st e fn)

/-- The UPDATE statement of `_save` (source lines 334–339). -/
def updateStmtOf (m : Mapping) : UpdateStmt :=
  { table := SQL.qn m.schema m.table,
    sets := m.updatable.map fun fn =>
      (SQL.n (colOf m fn), SQL.param (.pstr (colOf m fn))),
    whereC := SQL.all (m.primary_key.map fun fn =>
      SQL.eq (SQL.n (colOf m fn)) (SQL.param (.pstr (colOf m fn)))),
    returning := m.full.map fun fn => SQL.n (colOf m fn) }

/-- The INSERT statement of `_save` (source lines 348–353). -/
def insertStmtOf (m : Mapping) : InsertStmt :=
  { into_table := SQL.qn m.schema m.table,
    insert := m.insertable.map fun fn => SQL.n (colOf m fn),
    values := m.insertable.map fun fn => SQL.param (.pstr (colOf m fn)),
    returning := m.full.map fun fn => SQL.n (colOf m fn) }

/-- The DELETE statement of `_delete` (source lines 401–405). -/
def deleteStmtOf (m : Mapping) : DeleteStmt :=
  { from_table := SQL.qn m.schema m.table,
    whereC := SQL.all (m.key.map fun fn =>
      SQL.eq (SQL.n (colOf m fn)) (SQL.param (.pstr (colOf m fn)))),
    returning := m.key.map fun fn => SQL.n (colOf m fn) }

/-- The SELECT statement of `_get` (source lines 298–303). -/
def getSelectStmt (m : Mapping) (whereCols : List String) : SelectStmt :=
  { select := m.full.map fun fn => SQL.qn "t" (colOf m fn),
    from_table := SQL.qn m.schema m.table,
    from_alias := SQL.n "t",
    whereC := some (SQL.all (whereCols.map fun c =>
      SQL.eq (SQL.qn "t" c) (SQL.param (.pstr c)))) }

/-! ## The aggregate engine -/

/-- `to_update`: the entities whose identity is tracked. -/
def trackedOf (m : Mapping) (idm : IdMap) (st : Store) (es : List Nat) : List Nat :=
  es.filter fun e => idmInTrack idm (identifyEnt m st e)

/-- `to_insert`: the entities whose identity is untracked (evaluated
after the UPDATE write-backs, as in the source). -/
def untrackedOf (m : Mapping) (idm : IdMap) (st : Store) (es : List Nat) : List Nat :=
  es.filter fun e => ¬ idmInTrack idm (identifyEnt m st e)

/-- The UPDATE half of `_save`: when `to_update` is non-empty, emits one
batched UPDATE and writes each returned row back into its entity. -/
def updatePhase (B : Backend) (m : Mapping) (toUpd : List Nat) (st : Store) :
    List Op × Store :=
  if toUpd.isEmpty then ([], st)
  else
    let pms := toUpd.map (pmapOf m st (m.updatable ++ m.primary_key))
    let op := Op.update (updateStmtOf m) pms
    let rows := B op
    let st' := (toUpd.zip rows).foldl (fun s p => writeRow s p.1 m.full p.2) st
    ([op], st')

/-- The INSERT half of `_save`: when `to_insert` is non-empty, emits one
batched INSERT, writes returned rows back and tracks each entity (with
the identity read after its write-back). -/
def insertPhase (B : Backend) (m : Mapping) (toIns : List Nat) (st : Store)
    (idm : IdMap) : List Op × Store × IdMap :=
  if toIns.isEmpty then ([], st, idm)
  else
    let pms := toIns.map (pmapOf m st m.insertable)
    let op := Op.insert (insertStmtOf m) pms
    let rows := B op
    let r := (toIns.zip rows).foldl
      (fun (acc : Store × IdMap) p =>
        let s' := writeRow acc.1 p.1 m.full p.2
        (s', idmTrack acc.2 (identifyEnt m s' p.1) p.1)) (st, idm)
    ([op], r.1, r.2)

/-- The removed-children computation of `_save`'s child loop: for each
updated parent, the previously tracked child identities minus the
currently attached ones, resolved to entities. -/
def removedChildren (cm : Mapping) (cname : String) (m : Mapping)
    (toUpd : List Nat) (st : Store) (idm : IdMap) : List Nat :=
  toUpd.flatMap fun p =>
    let pk := primaryKeyOf m st p
    let cur := (getKids st p cname).map (identifyEnt cm st)
    let prev := idmTrackedChildren idm cm.typeId pk
    (prev.filter fun eid => ¬ eid ∈ cur).filterMap fun eid => idmGet idm eid

/-- The stamping loop of `_save`'s child loop: for every saved parent (in
order), writes the parent's primary-key values into each attached child's
parental-key attributes and collects the children into `to_save`. -/
def stampChildren (cm : Mapping) (cname : String) (m : Mapping)
    (es : List Nat) (st : Store) : Store × List Nat :=
  es.foldl
    (fun (acc : Store × List Nat) p =>
      let eid := identifyEnt m acc.1 p
      (getKids acc.1 p cname).foldl
        (fun (acc' : Store × List Nat) ch =>
          (writeRow acc'.1 ch cm.parental_key eid.primary, acc'.2 ++ [ch]))
        acc)
    (st, [])

/-- The stamping loop in recursive form (the same computation as
`stampChildren`, convenient for induction). -/
def stampFold (cm : Mapping) (cname : String) (m : Mapping) :
    List Nat → Store × List Nat → Store × List Nat
  | [], acc => acc
  | p :: rest, acc =>
      let eid := identifyEnt m acc.1 p
      stampFold cm cname m rest
        ((getKids acc.1 p cname).foldl
          (fun acc' ch => (writeRow acc'.1 ch cm.parental_key eid.primary, acc'.2 ++ [ch]))
          acc)

/-- The children loop of `_delete`: collects the tracked descendants of
each entity and deletes them first. -/
def delChildrenGo
    (delRec : Mapping → List Nat → Store → IdMap → Option (List Op × Store × IdMap))
    (m : Mapping) (es : List Nat) :
    List (String × Mapping) → Store → IdMap → Option (List Op × Store × IdMap)
  | [], st, idm => some ([], st, idm)
  | (_, ccm) :: rest, st, idm =>
      let toDel := es.flatMap fun e =>
        (idmTrackedChildren idm ccm.typeId (primaryKeyOf m st e)).filterMap (idmGet idm)
      match (if toDel.isEmpty then some ([], st, idm) else delRec ccm toDel st idm) with
      | none => none
      | some (tr1, st1, idm1) =>
          match delChildrenGo delRec m es rest st1 idm1 with
          | none => none
          | some (tr2, st2, idm2) => some (tr1 ++ tr2, st2, idm2)

/-- `Session._delete`: recursively deletes tracked descendants (leaves
first), then emits the batched DELETE and untracks each returned row's
identity.  Fuel bounds the recursion depth over the mapping tree. -/
def delGo (B : Backend) : Nat → Mapping → List Nat → Store → IdMap →
    Option (List Op × Store × IdMap)
  | 0, _, _, _, _ => none
  | fuel + 1, m, es, st, idm =>
      match delChildrenGo (fun cm' es' st' idm' => delGo B fuel cm' es' st' idm')
          m es m.children st idm with
      | none => none
      | some (trC, st1, idm1) =>
          let pms := es.map (pmapOf m st1 m.key)
          let op := Op.delete (deleteStmtOf m) pms
          let rows := B op
          let idm2 := rows.foldl (fun acc row => idmUntrack acc (identifyRow m row)) idm1
          some (trC ++ [op], st1, idm2)

/-- One iteration of `_save`'s child loop: compute the removed children
(pre-stamping state), stamp and collect `to_save`, then delete the
removed children and recursively save the attached ones. -/
def childSave
    (saveRec delRec : Mapping → List Nat → Store → IdMap → Option (List Op × Store × IdMap))
    (m : Mapping) (cname : String) (cm : Mapping) (toUpd es : List Nat)
    (st : Store) (idm : IdMap) : Option (List Op × Store × IdMap) :=
  let toDel := removedChildren cm cname m toUpd st idm
  let stamped := stampChildren cm cname m es st
  match (if toDel.isEmpty then some ([], stamped.1, idm) else delRec cm toDel stamped.1 idm) with
  | none => none
  | some (trD, st2, idm2) =>
      match (if stamped.2.isEmpty then some ([], st2, idm2) else saveRec cm stamped.2 st2 idm2) with
      | none => none
      | some (trS, st3, idm3) => some (trD ++ trS, st3, idm3)

/-- `_save`'s loop over the child mappings, threading state and
concatenating each child's trace. -/
def saveChildrenGo
    (saveRec delRec : Mapping → List Nat → Store → IdMap → Option (List Op × Store × IdMap))
    (m : Mapping) (toUpd es : List Nat) :
    List (String × Mapping) → Store → IdMap → Option (List Op × Store × IdMap)
  | [], st, idm => some ([], st, idm)
  | (cname, cm) :: rest, st, idm =>
      match childSave saveRec delRec m cname cm toUpd es st idm with
      | none => none
      | some (tr1, st1, idm1) =>
          match saveChildrenGo saveRec delRec m toUpd es rest st1 idm1 with
          | none => none
          | some (tr2, st2, idm2) => some (tr1 ++ tr2, st2, idm2)

/-- `Session._save`: UPDATE the tracked entities, INSERT the untracked
ones, then reconcile each child mapping (delete removed children, stamp
and recursively save attached ones).  Fuel bounds the recursion depth. -/
def saveGo (B : Backend) : Nat → Mapping → List Nat → Store → IdMap →
    Option (List Op × Store × IdMap)
  | 0, _, _, _, _ => none
  | fuel + 1, m, es, st, idm =>
      let toUpd := trackedOf m idm st es
      let resU := updatePhase B m toUpd st
      let toIns := untrackedOf m idm resU.2 es
      let resI := insertPhase B m toIns resU.2 idm
      match saveChildrenGo (fun cm' es' st' idm' => saveGo B fuel cm' es' st' idm')
          (fun cm' es' st' idm' => delGo B fuel cm' es' st' idm')
          m toUpd es m.children resI.2.1 resI.2.2 with
      | none => none
      | some (trC, st3, idm3) => some (resU.1 ++ resI.1 ++ trC, st3, idm3)

/-! ## `_get` and the query builder's `fetch` -/

/-- The SELECT call of `_get`: one param map per key, zipping the where
columns with the key values. -/
def getSelectOp (m : Mapping) (whereCols : List String) (keys : List Key) : Op :=
  Op.select (getSelectStmt m whereCols)
    (keys.map fun k => (whereCols.map PId.pstr).zip k)

/-- The row loop of `_get`: identify the row, reuse the tracked instance
or create one, hydrate it with the full projection, track it, and bind it
in the result map under its primary key (dict-assignment semantics). -/
def hydrateRow (m : Mapping) (acc : List (Key × Nat) × Store × IdMap) (row : Row) :
    List (Key × Nat) × Store × IdMap :=
  let eid := identifyRow m row
  let er := match idmGet acc.2.2 eid with
    | some e => (e, acc.2.1)
    | none => newEnt acc.2.1
  let st2 := writeRow er.2 er.1 m.full row
  (aset acc.1 eid.primary er.1, st2, idmTrack acc.2.2 eid er.1)

/-- The child-grouping step of `_get`: groups the fetched child entities
by their parental key. -/
def groupByParental (cm : Mapping) (st : Store) (cem : List (Key × Nat)) :
    List (Key × List Nat) :=
  cem.foldl
    (fun gs p =>
      let pk := parentalKeyOf cm st p.2
      aset gs pk ((alookup gs pk).getD [] ++ [p.2]))
    []

/-- The children loop of `_get`: recursively fetch each child mapping by
parental key, group, and write each parent's child attribute. -/
def getChildrenGo
    (getRec : Mapping → List String → List Key → Store → IdMap →
      Option (List (Key × Nat) × List Op × Store × IdMap))
    (m : Mapping) (em : List (Key × Nat)) :
    List (String × Mapping) → Store → IdMap → Option (List Op × Store × IdMap)
  | [], st, idm => some ([], st, idm)
  | (cname, cm) :: rest, st, idm =>
      match getRec cm (colsOf cm cm.parental_key) (em.map Prod.fst) st idm with
      | none => none
      | some (cem, tr1, st1, idm1) =>
          let gs := groupByParental cm st1 cem
          let st2 := em.foldl (fun s p => setKids s p.2 cname ((alookup gs p.1).getD [])) st1
          match getChildrenGo getRec m em rest st2 idm1 with
          | none => none
          | some (tr2, st3, idm2) => some (tr1 ++ tr2, st3, idm2)

/-- `Session._get`: emits the SELECT, hydrates the rows into an
insertion-ordered `{primary_key: entity}` map, then recursively loads and
attaches the children.  Fuel bounds the recursion depth. -/
def getGo (B : Backend) : Nat → Mapping → List String → List Key → Store → IdMap →
    Option (List (Key × Nat) × List Op × Store × IdMap)
  | 0, _, _, _, _, _ => none
  | fuel + 1, m, whereCols, keys, st, idm =>
      let op := getSelectOp m whereCols keys
      let rows := B op
      let r := rows.foldl (hydrateRow m) ([], st, idm)
      match getChildrenGo (fun cm' w' k' st' idm' => getGo B fuel cm' w' k' st' idm')
          m r.1 m.children r.2.1 r.2.2 with
      | none => none
      | some (trC, st2, idm2) => some (r.1, op :: trC, st2, idm2)

/-- The builder state a `SessionEntityQuery` accumulates. -/
structure QueryState where
  mapping : Mapping
  aliasName : String
  params : PMap := []
  joins : List Join := []
  where_conds : List SQL := []
  having_conds : List SQL := []
  order_by_opts : List OrderBy := []
  ctxPtr : Nat := 0

/-- The SELECT `fetch_session_entity_query` synthesizes (source lines
418–429): primary-key projection, the builder's joins / where / group-by
/ having / order-by, and parameterized limit and offset. -/
def fetchStmt (q : QueryState) (limitRef offsetRef : Nat) : SelectStmt :=
  { select := q.mapping.primary_key.map fun fn => SQL.qn q.aliasName (colOf q.mapping fn),
    from_table := SQL.qn q.mapping.schema q.mapping.table,
    from_alias := SQL.n q.aliasName,
    joins := q.joins,
    whereC := if q.where_conds.isEmpty then none else some (SQL.all q.where_conds),
    group_by := q.mapping.primary_key.map fun fn => SQL.qn q.aliasName (colOf q.mapping fn),
    having := if q.having_conds.isEmpty then none else some (SQL.all q.having_conds),
    order_bys := q.order_by_opts,
    limit := some (SQL.param (.pnum limitRef)),
    offset := some (SQL.param (.pnum offsetRef)) }

/-- The first backend call of `fetch`: the synthesized SELECT with the
builder's params plus the limit/offset bindings. -/
def fetchOp (q : QueryState) (limit offset : Value) : Op :=
  Op.select (fetchStmt q q.ctxPtr (q.ctxPtr + 1))
    [q.params ++ [(PId.pnum q.ctxPtr, limit), (PId.pnum (q.ctxPtr + 1), offset)]]

/-- `Session.fetch_session_entity_query`: runs the synthesized SELECT of
primary-key tuples, then `_get` over the returned keys, and returns the
entity map's values. -/
def fetchQueryGo (B : Backend) (fuel : Nat) (q : QueryState) (limit offset : Value)
    (st : Store) (idm : IdMap) : Option (List Nat × List Op × Store × IdMap) :=
  let op := fetchOp q limit offset
  let rows := B op
  let keys : List Key := rows
  match getGo B fuel q.mapping (colsOf q.mapping q.mapping.primary_key) keys st idm with
  | none => none
  | some (em, tr, st1, idm1) => some (em.map Prod.snd, op :: tr, st1, idm1)

/-! ## Transactions (`Session.tx`) -/

/-- A transaction-control backend call. -/
inductive TxOp where
  | begin
  | commit
  | rollback
  | savepoint (name : String)
  | release (name : String)
  | rollbackTo (name : String)
  deriving DecidableEq, Repr

/-- The transaction-relevant session state: the identity map and the
nesting depth. -/
structure SessState where
  idm : IdMap
  tx_depth : Nat
  deriving DecidableEq, Repr

/-- `Session._start_tx`: `BEGIN` at depth 0, else `SAVEPOINT tx_<depth>`;
then increment the depth. -/
def startTx (s : SessState) : List TxOp × SessState :=
  if s.tx_depth = 0 then ([TxOp.begin], { s with tx_depth := s.tx_depth + 1 })
  else ([TxOp.savepoint ("tx_" ++ toString s.tx_depth)], { s with tx_depth := s.tx_depth + 1 })

/-- `Session._end_tx`: decrement, then `COMMIT` at depth 0, else
`RELEASE SAVEPOINT tx_<depth>`. -/
def endTx (s : SessState) : List TxOp × SessState :=
  let d := s.tx_depth - 1
  if d = 0 then ([TxOp.commit], { s with tx_depth := d })
  else ([TxOp.release ("tx_" ++ toString d)], { s with tx_depth := d })

/-- `Session._rollback_tx`: decrement, then `ROLLBACK` at depth 0, else
`ROLLBACK TO SAVEPOINT tx_<depth>`. -/
def rollbackTx (s : SessState) : List TxOp × SessState :=
  let d := s.tx_depth - 1
  if d = 0 then ([TxOp.rollback], { s with tx_depth := d })
  else ([TxOp.rollbackTo ("tx_" ++ toString d)], { s with tx_depth := d })

/-- Insertion into a key sequence if absent (the observable effect of a
dict assignment on the key order). -/
def keysIns (ks : List Key) (k : Key) : List Key := if k ∈ ks then ks else ks ++ [k]

/-- `Session.tx`: start, snapshot the identity map, run the body; on
normal exit end the transaction, on an exception roll back, restore the
snapshot, and re-raise.  The body is an arbitrary state transformer
returning its backend trace and an optional exception. -/
def txRun {ε : Type} (body : SessState → List TxOp × SessState × Option ε)
    (s : SessState) : List TxOp × SessState × Option ε :=
  let r0 := startTx s
  let prev := r0.2.idm
  let rB := body r0.2
  match rB.2.2 with
  | none =>
      let r1 := endTx rB.2.1
      (r0.1 ++ rB.1 ++ r1.1, r1.2, none)
  | some e =>
      let r1 := rollbackTx rB.2.1
      (r0.1 ++ rB.1 ++ r1.1, { r1.2 with idm := prev }, some e)

/-! ## Concrete fixtures used by witnesses -/

/-- A one-field root mapping (table `public.t`, primary key `id`). -/
def wMap : Mapping := Mapping.mk 0 "public" "t" [("id", "id")] [] ["id"] [] ["id"] [] ["id"] ["id"]

/-- A backend whose every SELECT returns the key rows `[2], [1]`. -/
def wBackend : Backend := fun op =>
  match op with
  | Op.select _ _ => [[Value.vint 2], [Value.vint 1]]
  | _ => []

/-- A bare builder query over `wMap`. -/
def wQuery : QueryState := { mapping := wMap, aliasName := "a" }

/-- A child mapping (`public.c`, primary key `id`, parental key `pid`). -/
def wChild : Mapping :=
  Mapping.mk 1 "public" "c" [("id", "id"), ("pid", "pid")] [] ["id"] ["pid"]
    ["id", "pid"] [] ["id", "pid"] ["id", "pid"]

/-- A parent mapping (`public.p`) with one plural child `kids`. -/
def wParent : Mapping :=
  Mapping.mk 0 "public" "p" [("id", "id")] [("kids", wChild)] ["id"] [] ["id"] []
    ["id"] ["id"]

/-- A store holding one parent (entity 0, `id = 1`) with one attached
child (entity 1, `id = 10`). -/
def wStoreC1 : Store :=
  ⟨[(0, ⟨[("id", Value.vint 1)], [("kids", [1])]⟩),
    (1, ⟨[("id", Value.vint 10)], []⟩)], 2⟩

/-- A backend echoing full rows for the parent and child INSERTs. -/
def wB1 : Backend := fun op =>
  match op with
  | Op.insert ⟨SQL.qn _ "p", _, _, _⟩ _ => [[Value.vint 1]]
  | Op.insert ⟨SQL.qn _ "c", _, _, _⟩ _ => [[Value.vint 10, Value.vint 1]]
  | _ => []

/-! # Theorems -/

/-- C5 (code bug): the `sql_n` renderer branch does not double embedded
double quotes — `Name('x"y')` renders as `"x"y"` (an unbalanced, invalid
identifier), not as the `"x""y"` the specification requires; the
dot-splitting half of the rule does hold. -/
theorem c5_name_rendering_drops_quote_doubling :
    (elR (SQL.n "x\"y") []).1 = "\"x\"y\"" ∧
    (elR (SQL.n "my.field") []).1 = "\"my\".\"field\"" ∧
    ("\"x\"y\"" : String) ≠ "\"x\"\"y\"" := by
  refine ⟨rfl, rfl, ?_⟩
  decide

/-- C7 (counterexample): rendering `All([])` does not fail — it produces
the SQL text `()`. -/
theorem c7_counterexample_empty_all_renders : elR (SQL.all []) [] = ("()", []) := rfl

/-- C7 (amended): `All(xs)` renders as the parenthesized ` AND `-join of
its children's renderings (one rendered string per child, threading the
parameter-slot state); the empty collection is not an error but renders
as `()`. -/
theorem c7_all_renders_and_join (xs : List SQL) (st : RState) :
    elR (SQL.all xs) st =
      ("(" ++ String.intercalate " AND " (elRList xs st).1 ++ ")", (elRList xs st).2) ∧
    (elRList xs st).1.length = xs.length ∧
    (elR (SQL.all []) st).1 = "()" := by
  refine ⟨?_, ?_, rfl⟩
  · rw [elR]
  · induction xs generalizing st with
    | nil => rfl
    | cons e es ih => rw [elRList]; simpa using ih (elR e st).2

/-- C9 (counterexample): for fields `id`, `message`, `article_id` with
primary key `id` and parental key `article_id` (the repository's own
`ArticleComment` automapping test), the computed `updatable` projection
is `["message"]`, not the `["message", "article_id"]` the claim's rule
("neither primary-key nor skip-on-update") would give. -/
theorem c9_counterexample_parental_excluded :
    (buildProjections [("id", {}), ("message", {}), ("article_id", {})]
        ["id"] ["article_id"]).updatable
      ≠ updatableClaim [("id", {}), ("message", {}), ("article_id", {})] ["id"] := by
  decide

/-- C9 (amended): the `updatable` projection contains exactly the field
names that are neither primary-key fields, nor parental-key fields, nor
declared skip-on-update. -/
theorem c9_updatable_membership (field_configs : List (String × FieldConfig))
    (primary parental : List String) (x : String) :
    x ∈ (buildProjections field_configs primary parental).updatable ↔
      x ∈ field_configs.map Prod.fst ∧
      ¬ x ∈ (field_configs.filter fun fc => fc.2.skip_on_update).map Prod.fst ∧
      ¬ x ∈ primary ∧ ¬ x ∈ parental := by
  simp [buildProjections]

/-- C10: `Key.from_key_like` treats any Python `Sequence` element-wise,
and strings are Sequences — so `batch_get` over a single string id `s`
builds the key tuple of `s`'s characters, which differs from the intended
one-element key `(s,)` whenever `s` does not have length one. -/
theorem c10_string_id_key (s : String) (h : s.length ≠ 1) :
    batchGetKeys [KeyLike.single (Value.vstr s)] =
      [s.data.map fun c => Value.vstr (String.mk [c])] ∧
    from_key_like (KeyLike.single (Value.vstr s)) ≠ [Value.vstr s] := by
  constructor
  · rfl
  · intro heq
    have h1 : (s.data.map fun c => Value.vstr (String.mk [c])) = [Value.vstr s] := heq
    have hlen := congrArg List.length h1
    rw [List.length_map] at hlen
    exact h hlen

/-- C10 witness at `s = "ab"`. -/
theorem c10_witness :
    ("ab" : String).length ≠ 1 ∧
    (batchGetKeys [KeyLike.single (Value.vstr "ab")] =
        [("ab" : String).data.map fun c => Value.vstr (String.mk [c])] ∧
      from_key_like (KeyLike.single (Value.vstr "ab")) ≠ [Value.vstr "ab"]) :=
  ⟨by decide, c10_string_id_key "ab" (by decide)⟩

/-- C2: for every body that raises inside `tx()` (leaving the depth
counter as it found it plus the one increment `tx` made), the wrapper
issues `ROLLBACK` when entered at depth 0 and `ROLLBACK TO SAVEPOINT
tx_<depth>` when nested — as the final backend call — restores the
identity map snapshotted at entry, and re-raises the same exception. -/
theorem c2_tx_exceptional_rollback {ε : Type}
    (body : SessState → List TxOp × SessState × Option ε) (s : SessState) (e : ε)
    (hexc : (body (startTx s).2).2.2 = some e)
    (hdepth : (body (startTx s).2).2.1.tx_depth = s.tx_depth + 1) :
    (txRun body s).2.2 = some e ∧
    (txRun body s).2.1.idm = s.idm ∧
    (txRun body s).1 =
      (startTx s).1 ++ (body (startTx s).2).1 ++
        [if s.tx_depth = 0 then TxOp.rollback
         else TxOp.rollbackTo ("tx_" ++ toString s.tx_depth)] := by
  have hidm : (startTx s).2.idm = s.idm := by
    unfold startTx; split <;> rfl
  have hroll : rollbackTx (body (startTx s).2).2.1 =
      ([if s.tx_depth = 0 then TxOp.rollback
        else TxOp.rollbackTo ("tx_" ++ toString s.tx_depth)],
       { (body (startTx s).2).2.1 with tx_depth := s.tx_depth }) := by
    unfold rollbackTx
    rw [hdepth, Nat.add_sub_cancel]
    by_cases h0 : s.tx_depth = 0 <;> simp [h0]
  simp [txRun, hexc, hroll, hidm]

/-- C2 witness: at the concrete session state `⟨[], 0⟩` and a body that
tracks an entity and raises `3`. -/
theorem c2_witness :
    (((fun st => (([] : List TxOp),
        SessState.mk [(⟨0, [], [Value.vint 1]⟩, 7)] st.tx_depth, some 3))
        ((startTx ⟨[], 0⟩).2)).2.2 = some 3) ∧
    (((fun st => (([] : List TxOp),
        SessState.mk [(⟨0, [], [Value.vint 1]⟩, 7)] st.tx_depth, some 3))
        ((startTx ⟨[], 0⟩).2)).2.1.tx_depth = (SessState.mk [] 0).tx_depth + 1) ∧
    ((txRun (fun st => (([] : List TxOp),
        SessState.mk [(⟨0, [], [Value.vint 1]⟩, 7)] st.tx_depth, some 3)) ⟨[], 0⟩).2.2
          = some 3 ∧
     (txRun (fun st => (([] : List TxOp),
        SessState.mk [(⟨0, [], [Value.vint 1]⟩, 7)] st.tx_depth, some 3)) ⟨[], 0⟩).2.1.idm
          = (SessState.mk [] 0).idm ∧
     (txRun (fun st => (([] : List TxOp),
        SessState.mk [(⟨0, [], [Value.vint 1]⟩, 7)] st.tx_depth, some 3)) ⟨[], 0⟩).1 =
       (startTx ⟨[], 0⟩).1 ++
         ((fun st => (([] : List TxOp),
             SessState.mk [(⟨0, [], [Value.vint 1]⟩, 7)] st.tx_depth, some 3))
             ((startTx ⟨[], 0⟩).2)).1 ++
         [if (SessState.mk [] 0).tx_depth = 0 then TxOp.rollback
          else TxOp.rollbackTo ("tx_" ++ toString (SessState.mk [] 0).tx_depth)]) :=
  ⟨rfl, rfl, c2_tx_exceptional_rollback _ ⟨[], 0⟩ 3 rfl rfl⟩

/-- Enumerating a `take`-prefix equals indexing over a range (with a
defaulting lookup that never hits its default). -/
theorem take_enum_map_getD {α β : Type} (xs : List α) (d : α) (k : Nat)
    (hk : k ≤ xs.length) (f : Nat × α → β) :
    ((xs.take k).enum).map f = (List.range k).map fun j => f (j, xs.getD j d) := by
  apply List.ext_getElem
  · simp [Nat.min_eq_left hk]
  · intro i h1 h2
    have hi : i < k := by simpa using h2
    have hix : i < xs.length := lt_of_lt_of_le hi hk
    simp only [List.getElem_map, List.getElem_range]
    rw [List.getElem_enum, List.getElem_take, List.getD_eq_getElem xs d hix]

/-- C4 (counterexample): at one descending nulls-last order entry
traversed forward, the code's predicate keeps the null-polarity disjunct
`(v IS NOT NULL AND expr IS NULL)` while the claim's "swapped" rule gives
`(v IS NULL AND expr IS NOT NULL)` — the rendered SQL differs. -/
theorem c4_counterexample_swapped_polarity :
    (elR (formatCursorPredicate [⟨SQL.n "r", false, true⟩] [SQL.param (.pnum 0)] true) []).1 ≠
    (elR (cursorPredicateClaim [⟨SQL.n "r", false, true⟩] [SQL.param (.pnum 0)] true) []).1 := by
  decide

/-- C4 (amended): `_format_cursor_predicate` builds exactly the claimed
OR-of-ANDs, except that on a decisive column whose direction is opposite
to the traversal only the comparison flips to `>`; the null-polarity
disjunct is unchanged (it depends only on whether nulls-last matches
forward). -/
theorem c4_cursor_predicate_shape (order_bys : List OrderBy) (vals : List SQL)
    (forward : Bool) (h : vals.length = order_bys.length) :
    formatCursorPredicate order_bys vals forward =
      cursorPredicateAmended order_bys vals forward := by
  clear h
  unfold formatCursorPredicate cursorPredicateAmended
  congr 1
  apply List.map_congr_left
  intro i hi
  have hin : i < order_bys.length := List.mem_range.mp hi
  congr 1
  rw [take_enum_map_getD order_bys ⟨SQL.text "", true, true⟩ (i + 1)
      (Nat.succ_le_of_lt hin)]
  apply List.map_congr_left
  intro j hj
  have hji : j < i + 1 := List.mem_range.mp hj
  rcases Nat.lt_or_ge j i with hlt | hge
  · have hne : i ≠ j := Nat.ne_of_gt hlt
    simp [hne, hlt]
  · have hj_eq : j = i := Nat.le_antisymm (Nat.lt_succ_iff.mp hji) hge
    subst hj_eq
    have hnot : ¬ j < j := lt_irrefl j
    generalize hov : order_bys.getD j ⟨SQL.text "", true, true⟩ = ob
    generalize hvv : vals.getD j (SQL.text "") = v
    have hne : ¬ (j ≠ j) := fun hx => hx rfl
    by_cases h1 : ob.ascending = forward <;> by_cases h2 : ob.nulls_last = forward <;>
      simp [hne, hnot, h1, h2, hov, hvv, -List.getD_eq_getElem?_getD]

/-- C4 witness: the amended shape at one concrete ascending entry and its
cursor value. -/
theorem c4_witness :
    ([SQL.param (.pnum 0)] : List SQL).length =
      ([⟨SQL.n "r", true, true⟩] : List OrderBy).length ∧
    formatCursorPredicate [⟨SQL.n "r", true, true⟩] [SQL.param (.pnum 0)] true =
      cursorPredicateAmended [⟨SQL.n "r", true, true⟩] [SQL.param (.pnum 0)] true :=
  ⟨rfl, c4_cursor_predicate_shape _ _ _ rfl⟩

/-- If any token of the stream is a placeholder whose name is missing
from the supplied mapping, the parse loop fails. -/
theorem parseGo_error_of_missing (params : List (String × Value)) :
    ∀ (ws : List String) (ptr : Nat) (idx : List (String × Nat)) (pm : List (Nat × Value)),
      (∃ w ∈ ws, ∃ x, paramTokenName w = some x ∧ alookup params x = none) →
      ∃ e, parseGo params ws ptr idx pm = .error e := by
  intro ws
  induction ws with
  | nil =>
      rintro _ _ _ ⟨w, hw, _⟩
      exact absurd hw (List.not_mem_nil w)
  | cons w ws ih =>
      rintro ptr idx pm ⟨w0, hw0, x, hx, hmiss⟩
      rcases List.mem_cons.mp hw0 with heq | htail
      · subst heq
        exact ⟨x, by simp [parseGo, hx, hmiss]⟩
      · rcases hpt : paramTokenName w with _ | nm
        · obtain ⟨e, he⟩ := ih ptr idx pm ⟨w0, htail, x, hx, hmiss⟩
          exact ⟨e, by simp [parseGo, hpt, he]⟩
        · rcases hlk : alookup params nm with _ | v
          · exact ⟨nm, by simp [parseGo, hpt, hlk]⟩
          · rcases hix : alookup idx nm with _ | pid
            · obtain ⟨e, he⟩ :=
                ih (ptr + 1) (idx ++ [(nm, ptr)]) (pm ++ [(ptr, v)]) ⟨w0, htail, x, hx, hmiss⟩
              exact ⟨e, by simp [parseGo, hpt, hlk, hix, he]⟩
            · obtain ⟨e, he⟩ := ih ptr idx pm ⟨w0, htail, x, hx, hmiss⟩
              exact ⟨e, by simp [parseGo, hpt, hlk, hix, he]⟩

/-- C8: a fragment containing a `:name` placeholder whose name is not
supplied fails at parse time (`ParameterMissing`, the source's
`assert param_name in params`), and no statement reaches the backend:
the raw-query pipeline emits no backend event. -/
theorem c8_missing_parameter_fails_at_parse (s : String)
    (params : List (String × Value)) (x : String)
    (hmem : ∃ w ∈ tokenize s, paramTokenName w = some x)
    (hmiss : alookup params x = none) :
    (∃ e, parseFragment 0 s params = .error e) ∧ rawQueryEvents s params = [] := by
  obtain ⟨w, hw, hx⟩ := hmem
  obtain ⟨e, he⟩ := parseGo_error_of_missing params (tokenize s) 0 [] [] ⟨w, hw, x, hx, hmiss⟩
  refine ⟨⟨e, ?_⟩, ?_⟩
  · simp [parseFragment, he]
  · simp [rawQueryEvents, parseFragment, he]

/-- C8 witness at the fragment `"a = :x"` with an empty mapping. -/
theorem c8_witness :
    (∃ w ∈ tokenize "a = :x", paramTokenName w = some "x") ∧
    alookup ([] : List (String × Value)) "x" = none ∧
    ((∃ e, parseFragment 0 "a = :x" [] = .error e) ∧ rawQueryEvents "a = :x" [] = []) :=
  ⟨⟨":x", by decide, by decide⟩, rfl,
    c8_missing_parameter_fails_at_parse "a = :x" [] "x" ⟨":x", by decide, by decide⟩ rfl⟩

theorem alookup_append_left {α β : Type} [DecidableEq α] (l l' : List (α × β)) (k : α)
    (v : β) (h : alookup l k = some v) : alookup (l ++ l') k = some v := by
  induction l with
  | nil => simp [alookup] at h
  | cons p ps ih =>
      rw [alookup] at h
      by_cases hk : p.1 = k
      · simpa [alookup, hk] using by simpa [alookup, hk] using h
      · rw [List.cons_append, alookup]
        simp only [hk, if_false]
        exact ih (by simpa [hk] using h)

theorem alookup_append_none {α β : Type} [DecidableEq α] (l : List (α × β)) (k : α)
    (v : β) (h : alookup l k = none) : alookup (l ++ [(k, v)]) k = some v := by
  induction l with
  | nil => simp [alookup]
  | cons p ps ih =>
      rw [alookup] at h
      by_cases hk : p.1 = k
      · simp [hk] at h
      · rw [List.cons_append, alookup]
        simp only [hk, if_false]
        exact ih (by simpa [hk] using h)

theorem alookup_append_single {α β : Type} [DecidableEq α] (l : List (α × β))
    (k0 k : α) (v0 : β) (v : β) (h : alookup (l ++ [(k0, v0)]) k = some v) :
    alookup l k = some v ∨ (alookup l k = none ∧ k0 = k ∧ v0 = v) := by
  induction l with
  | nil =>
      rw [List.nil_append, alookup] at h
      by_cases hk : k0 = k
      · right
        refine ⟨rfl, hk, ?_⟩
        simpa [hk] using h
      · simp [hk, alookup] at h
  | cons p ps ih =>
      rw [List.cons_append, alookup] at h
      by_cases hk : p.1 = k
      · left; rw [alookup]; simpa [hk] using h
      · rcases ih (by simpa [hk] using h) with h1 | h1
        · left; rw [alookup]; simpa [hk] using h1
        · right; exact ⟨by rw [alookup]; simpa [hk] using h1.1, h1.2⟩

theorem parseGo_cons_text (params : List (String × Value)) (w : String) (ws : List String)
    (ptr : Nat) (idx : List (String × Nat)) (pm : List (Nat × Value))
    (hpt : paramTokenName w = none) :
    parseGo params (w :: ws) ptr idx pm =
      match parseGo params ws ptr idx pm with
      | .error e => .error e
      | .ok (ts, idx', pm', ptr') => .ok (SQL.text w :: ts, idx', pm', ptr') := by
  rw [parseGo, hpt]

theorem parseGo_cons_reuse (params : List (String × Value)) (w : String) (ws : List String)
    (ptr : Nat) (idx : List (String × Nat)) (pm : List (Nat × Value))
    (nm : String) (v : Value) (pid : Nat)
    (hpt : paramTokenName w = some nm) (hlk : alookup params nm = some v)
    (hix : alookup idx nm = some pid) :
    parseGo params (w :: ws) ptr idx pm =
      match parseGo params ws ptr idx pm with
      | .error e => .error e
      | .ok (ts, idx', pm', ptr') => .ok (SQL.param (.pnum pid) :: ts, idx', pm', ptr') := by
  rw [parseGo, hpt]
  simp only [hlk, hix]

theorem parseGo_cons_alloc (params : List (String × Value)) (w : String) (ws : List String)
    (ptr : Nat) (idx : List (String × Nat)) (pm : List (Nat × Value))
    (nm : String) (v : Value)
    (hpt : paramTokenName w = some nm) (hlk : alookup params nm = some v)
    (hix : alookup idx nm = none) :
    parseGo params (w :: ws) ptr idx pm =
      match parseGo params ws (ptr + 1) (idx ++ [(nm, ptr)]) (pm ++ [(ptr, v)]) with
      | .error e => .error e
      | .ok (ts, idx', pm', ptr') => .ok (SQL.param (.pnum ptr) :: ts, idx', pm', ptr') := by
  rw [parseGo, hpt]
  simp only [hlk, hix]

/-- The parse loop preserves token positions: the result has one AST node
per token; placeholder-name bindings persist; and every placeholder token
becomes the `Param` node of its name's final id. -/
theorem parseGo_ok_spec (params : List (String × Value)) :
    ∀ (ws : List String) (ptr : Nat) (idx0 : List (String × Nat)) (pm0 : List (Nat × Value))
      (ts : List SQL) (idx' : List (String × Nat)) (pm' : List (Nat × Value)) (ptr' : Nat),
      parseGo params ws ptr idx0 pm0 = .ok (ts, idx', pm', ptr') →
      ts.length = ws.length ∧
      (∀ nm pid, alookup idx0 nm = some pid → alookup idx' nm = some pid) ∧
      (∀ i (h1 : i < ws.length) (h2 : i < ts.length) nm,
        paramTokenName (ws.get ⟨i, h1⟩) = some nm →
        ∃ pid, alookup idx' nm = some pid ∧ ts.get ⟨i, h2⟩ = SQL.param (.pnum pid)) := by
  intro ws
  induction ws with
  | nil =>
      intro ptr idx0 pm0 ts idx' pm' ptr' h
      rw [parseGo] at h
      simp only [Except.ok.injEq, Prod.mk.injEq] at h
      obtain ⟨hts, hidx, hpm, hptr⟩ := h
      subst hts; subst hidx
      refine ⟨rfl, fun nm pid hp => hp, ?_⟩
      intro i h1 _ _ _
      exact absurd h1 (Nat.not_lt_zero i)
  | cons w ws ih =>
      intro ptr idx0 pm0 ts idx' pm' ptr' h
      rcases hpt : paramTokenName w with _ | nm0
      · rw [parseGo_cons_text params w ws ptr idx0 pm0 hpt] at h
        rcases hrec : parseGo params ws ptr idx0 pm0 with e | ⟨ts0, idxr, pmr, ptrr⟩
        · rw [hrec] at h; cases h
        · rw [hrec] at h
          simp only [Except.ok.injEq, Prod.mk.injEq] at h
          obtain ⟨hts, hidx, hpm, hptr⟩ := h
          obtain ⟨hlen, hper, hpos⟩ := ih ptr idx0 pm0 ts0 idxr pmr ptrr hrec
          subst hts; subst hidx
          refine ⟨by simpa using hlen, hper, ?_⟩
          intro i h1 h2 nm hname
          match i with
          | 0 =>
              simp only [List.get] at hname
              rw [hpt] at hname
              cases hname
          | Nat.succ j =>
              exact hpos j (by simpa using h1) (by simpa using h2) nm hname
      · rcases hlk : alookup params nm0 with _ | v
        · rw [parseGo, hpt] at h
          simp only [hlk] at h
          cases h
        · rcases hix : alookup idx0 nm0 with _ | pid0
          · -- allocation
            rw [parseGo_cons_alloc params w ws ptr idx0 pm0 nm0 v hpt hlk hix] at h
            rcases hrec : parseGo params ws (ptr + 1) (idx0 ++ [(nm0, ptr)]) (pm0 ++ [(ptr, v)])
              with e | ⟨ts0, idxr, pmr, ptrr⟩
            · rw [hrec] at h; cases h
            · rw [hrec] at h
              simp only [Except.ok.injEq, Prod.mk.injEq] at h
              obtain ⟨hts, hidx, hpm, hptr⟩ := h
              obtain ⟨hlen, hper, hpos⟩ :=
                ih (ptr + 1) (idx0 ++ [(nm0, ptr)]) (pm0 ++ [(ptr, v)]) ts0 idxr pmr ptrr hrec
              subst hts; subst hidx
              have hper0 : ∀ nm pid, alookup idx0 nm = some pid → alookup idxr nm = some pid :=
                fun nm pid hp => hper nm pid (alookup_append_left _ _ _ _ hp)
              refine ⟨by simpa using hlen, hper0, ?_⟩
              intro i h1 h2 nm hname
              match i with
              | 0 =>
                  simp only [List.get] at hname
                  rw [hpt] at hname
                  injection hname with hname
                  subst hname
                  exact ⟨ptr, hper nm0 ptr (alookup_append_none _ _ _ hix), by simp [List.get]⟩
              | Nat.succ j =>
                  exact hpos j (by simpa using h1) (by simpa using h2) nm hname
          · -- reuse
            rw [parseGo_cons_reuse params w ws ptr idx0 pm0 nm0 v pid0 hpt hlk hix] at h
            rcases hrec : parseGo params ws ptr idx0 pm0 with e | ⟨ts0, idxr, pmr, ptrr⟩
            · rw [hrec] at h; cases h
            · rw [hrec] at h
              simp only [Except.ok.injEq, Prod.mk.injEq] at h
              obtain ⟨hts, hidx, hpm, hptr⟩ := h
              obtain ⟨hlen, hper, hpos⟩ := ih ptr idx0 pm0 ts0 idxr pmr ptrr hrec
              subst hts; subst hidx
              refine ⟨by simpa using hlen, hper, ?_⟩
              intro i h1 h2 nm hname
              match i with
              | 0 =>
                  simp only [List.get] at hname
                  rw [hpt] at hname
                  injection hname with hname
                  subst hname
                  exact ⟨pid0, hper nm0 pid0 hix, by simp [List.get]⟩
              | Nat.succ j =>
                  exact hpos j (by simpa using h1) (by simpa using h2) nm hname

/-- Parse-loop allocation invariant: param-map keys stay below the
pointer, are pairwise distinct, and every id bound in the index map is a
param-map key. -/
theorem parseGo_alloc (params : List (String × Value)) :
    ∀ (ws : List String) (ptr : Nat) (idx0 : List (String × Nat)) (pm0 : List (Nat × Value))
      (ts : List SQL) (idx' : List (String × Nat)) (pm' : List (Nat × Value)) (ptr' : Nat),
      parseGo params ws ptr idx0 pm0 = .ok (ts, idx', pm', ptr') →
      (∀ k ∈ pm0.map Prod.fst, k < ptr) →
      (pm0.map Prod.fst).Nodup →
      (∀ nm pid, alookup idx0 nm = some pid → pid ∈ pm0.map Prod.fst) →
      (∀ k ∈ pm'.map Prod.fst, k < ptr') ∧ (pm'.map Prod.fst).Nodup ∧
      (∀ nm pid, alookup idx' nm = some pid → pid ∈ pm'.map Prod.fst) := by
  intro ws
  induction ws with
  | nil =>
      intro ptr idx0 pm0 ts idx' pm' ptr' h hlt hnd hbound
      rw [parseGo] at h
      simp only [Except.ok.injEq, Prod.mk.injEq] at h
      obtain ⟨hts, hidx, hpm, hptr⟩ := h
      subst hidx; subst hpm; subst hptr
      exact ⟨hlt, hnd, hbound⟩
  | cons w ws ih =>
      intro ptr idx0 pm0 ts idx' pm' ptr' h hlt hnd hbound
      rcases hpt : paramTokenName w with _ | nm0
      · rw [parseGo_cons_text params w ws ptr idx0 pm0 hpt] at h
        rcases hrec : parseGo params ws ptr idx0 pm0 with e | ⟨ts0, idxr, pmr, ptrr⟩
        · rw [hrec] at h; cases h
        · rw [hrec] at h
          simp only [Except.ok.injEq, Prod.mk.injEq] at h
          obtain ⟨hts, hidx, hpm, hptr⟩ := h
          subst hidx; subst hpm; subst hptr
          exact ih ptr idx0 pm0 ts0 _ _ _ hrec hlt hnd hbound
      · rcases hlk : alookup params nm0 with _ | v
        · rw [parseGo, hpt] at h
          simp only [hlk] at h
          cases h
        · rcases hix : alookup idx0 nm0 with _ | pid0
          · rw [parseGo_cons_alloc params w ws ptr idx0 pm0 nm0 v hpt hlk hix] at h
            rcases hrec : parseGo params ws (ptr + 1) (idx0 ++ [(nm0, ptr)]) (pm0 ++ [(ptr, v)])
              with e | ⟨ts0, idxr, pmr, ptrr⟩
            · rw [hrec] at h; cases h
            · rw [hrec] at h
              simp only [Except.ok.injEq, Prod.mk.injEq] at h
              obtain ⟨hts, hidx, hpm, hptr⟩ := h
              subst hidx; subst hpm; subst hptr
              refine ih (ptr + 1) (idx0 ++ [(nm0, ptr)]) (pm0 ++ [(ptr, v)]) ts0 _ _ _
                hrec ?_ ?_ ?_
              · intro k hk
                rw [List.map_append] at hk
                rcases List.mem_append.mp hk with hk | hk
                · exact Nat.lt_succ_of_lt (hlt k hk)
                · simp at hk
                  omega
              · rw [List.map_append]
                refine List.Nodup.append hnd (by simp) ?_
                intro a ha hb
                simp at hb
                have := hlt a ha
                omega
              · intro nm pid hp
                rcases alookup_append_single idx0 nm0 nm ptr pid hp with h1 | ⟨_, _, h3⟩
                · rw [List.map_append]
                  exact List.mem_append.mpr (Or.inl (hbound nm pid h1))
                · subst h3
                  rw [List.map_append]
                  exact List.mem_append.mpr (Or.inr (by simp))
          · rw [parseGo_cons_reuse params w ws ptr idx0 pm0 nm0 v pid0 hpt hlk hix] at h
            rcases hrec : parseGo params ws ptr idx0 pm0 with e | ⟨ts0, idxr, pmr, ptrr⟩
            · rw [hrec] at h; cases h
            · rw [hrec] at h
              simp only [Except.ok.injEq, Prod.mk.injEq] at h
              obtain ⟨hts, hidx, hpm, hptr⟩ := h
              subst hidx; subst hpm; subst hptr
              exact ih ptr idx0 pm0 ts0 _ _ _ hrec hlt hnd hbound

theorem alookup_none_of_not_mem_keys {α β : Type} [DecidableEq α]
    (l : List (α × β)) (k : α) (h : ¬ k ∈ l.map Prod.fst) : alookup l k = none := by
  induction l with
  | nil => rfl
  | cons p ps ih =>
      rw [alookup]
      rw [List.map_cons, List.mem_cons] at h
      push_neg at h
      rw [if_neg (fun hh => h.1 hh.symm)]
      exact ih h.2

/-- With pairwise-distinct keys, a present key is bound exactly once. -/
theorem filter_key_count {β : Type} (pm : List (Nat × β)) (pid : Nat)
    (hnd : (pm.map Prod.fst).Nodup) (hmem : pid ∈ pm.map Prod.fst) :
    (pm.filter fun b => b.1 = pid).length = 1 := by
  induction pm with
  | nil => simp at hmem
  | cons p ps ih =>
      rw [List.map_cons, List.nodup_cons] at hnd
      by_cases hk : p.1 = pid
      · have hnot : ¬ pid ∈ ps.map Prod.fst := hk ▸ hnd.1
        have : (ps.filter fun b => b.1 = pid) = [] := by
          apply List.filter_eq_nil_iff.mpr
          intro b hb
          simp only [decide_eq_true_eq]
          intro hbe
          exact hnot (hbe ▸ List.mem_map_of_mem Prod.fst hb)
        simp [List.filter_cons, hk, this]
      · have hmem' : pid ∈ ps.map Prod.fst := by
          rw [List.map_cons] at hmem
          rcases List.mem_cons.mp hmem with h1 | h1
          · exact absurd h1.symm hk
          · exact h1
        simp [List.filter_cons, hk, ih hnd.2 hmem']

theorem posOf_append_some (st : RState) (p : PId) (k : Nat) (ext : RState)
    (h : posOf st p = some k) : posOf (st ++ ext) p = some k := by
  induction st generalizing k with
  | nil => simp [posOf] at h
  | cons q qs ih =>
      rw [posOf] at h
      rw [List.cons_append, posOf]
      by_cases hq : q = p
      · simpa [hq] using by simpa [hq] using h
      · simp only [hq, if_false] at h ⊢
        rcases Option.map_eq_some'.mp h with ⟨k0, hk0, hk⟩
        rw [ih k0 hk0]
        simp [hk]

theorem posOf_append_self (st : RState) (p : PId) (h : posOf st p = none) :
    posOf (st ++ [p]) p = some st.length := by
  induction st with
  | nil => simp [posOf]
  | cons q qs ih =>
      rw [posOf] at h
      rw [List.cons_append, posOf]
      by_cases hq : q = p
      · simp [hq] at h
      · simp only [hq, if_false] at h ⊢
        rw [ih (by simpa using h)]
        simp

mutual
/-- Rendering only appends to the param-location state. -/
theorem elR_state_append (e : SQL) (st : RState) : ∃ ext, (elR e st).2 = st ++ ext := by
  cases e with
  | n s => exact ⟨[], by simp [elR]⟩
  | qn a b => exact ⟨[], by simp [elR]⟩
  | text t => exact ⟨[], by simp [elR]⟩
  | param id =>
      rw [elR]
      unfold locateParam
      rcases posOf st id with _ | k
      · exact ⟨[id], rfl⟩
      · exact ⟨[], by simp⟩
  | all els =>
      obtain ⟨ext, hx⟩ := elRList_state_append els st
      exact ⟨ext, by rw [elR]; simpa using hx⟩
  | any els =>
      obtain ⟨ext, hx⟩ := elRList_state_append els st
      exact ⟨ext, by rw [elR]; simpa using hx⟩
  | fragment els =>
      obtain ⟨ext, hx⟩ := elRList_state_append els st
      exact ⟨ext, by rw [elR]; simpa using hx⟩
  | eq l r =>
      obtain ⟨e1, h1⟩ := elR_state_append l st
      obtain ⟨e2, h2⟩ := elR_state_append r (elR l st).2
      exact ⟨e1 ++ e2, by rw [elR]; simp only []; rw [h2, h1, List.append_assoc]⟩
  | lt l r =>
      obtain ⟨e1, h1⟩ := elR_state_append l st
      obtain ⟨e2, h2⟩ := elR_state_append r (elR l st).2
      exact ⟨e1 ++ e2, by rw [elR]; simp only []; rw [h2, h1, List.append_assoc]⟩
  | gt l r =>
      obtain ⟨e1, h1⟩ := elR_state_append l st
      obtain ⟨e2, h2⟩ := elR_state_append r (elR l st).2
      exact ⟨e1 ++ e2, by rw [elR]; simp only []; rw [h2, h1, List.append_assoc]⟩
  | isNull x =>
      obtain ⟨e1, h1⟩ := elR_state_append x st
      exact ⟨e1, by rw [elR]; simpa using h1⟩
  | isNotNull x =>
      obtain ⟨e1, h1⟩ := elR_state_append x st
      exact ⟨e1, by rw [elR]; simpa using h1⟩

theorem elRList_state_append (es : List SQL) (st : RState) :
    ∃ ext, (elRList es st).2 = st ++ ext := by
  cases es with
  | nil => exact ⟨[], by simp [elRList]⟩
  | cons e es =>
      obtain ⟨e1, h1⟩ := elR_state_append e st
      obtain ⟨e2, h2⟩ := elRList_state_append es (elR e st).2
      exact ⟨e1 ++ e2, by rw [elRList]; simp only []; rw [h2, h1, List.append_assoc]⟩
end

theorem elRList_cons (e : SQL) (es : List SQL) (st : RState) :
    elRList (e :: es) st =
      ((elR e st).1 :: (elRList es (elR e st).2).1, (elRList es (elR e st).2).2) := by
  rcases h1 : elR e st with ⟨s, st1⟩
  rcases h2 : elRList es st1 with ⟨ss, st2⟩
  simp [elRList, h1, h2]

/-- Rendering a param produces the slot locate_param assigns, and the id
is present in the resulting state at that slot. -/
theorem elR_param_pos (id : PId) (st : RState) :
    ∃ k, (elR (SQL.param id) st).1 = "$" ++ toString (k + 1) ∧
      posOf (elR (SQL.param id) st).2 id = some k := by
  rw [elR]
  unfold locateParam
  rcases hp : posOf st id with _ | k
  · exact ⟨st.length, rfl, posOf_append_self st id hp⟩
  · exact ⟨k, rfl, hp⟩

/-- If some element is `Param pid`, the final rendering state locates
`pid`. -/
theorem elRList_param_mem (pid : PId) :
    ∀ (els : List SQL) (st : RState) (i : Nat) (h1 : i < els.length),
      els.get ⟨i, h1⟩ = SQL.param pid →
      ∃ k, posOf (elRList els st).2 pid = some k := by
  intro els
  induction els with
  | nil => intro st i h1 _; exact absurd h1 (Nat.not_lt_zero i)
  | cons e es ih =>
      intro st i h1 hel
      match i with
      | 0 =>
          have he : e = SQL.param pid := hel
          subst he
          obtain ⟨k, _, hpos⟩ := elR_param_pos pid st
          obtain ⟨ext, hext⟩ := elRList_state_append es (elR (SQL.param pid) st).2
          refine ⟨k, ?_⟩
          rw [elRList_cons]
          simp only []
          rw [hext]
          exact posOf_append_some _ _ _ _ hpos
      | Nat.succ j =>
          have := ih (elR e st).2 j (by simpa using h1) hel
          rw [elRList_cons]
          simpa using this

/-- Every occurrence of `Param pid` renders as the same positional slot:
the one the final state assigns to `pid`. -/
theorem elRList_render_param (pid : PId) :
    ∀ (els : List SQL) (st : RState) (slot : Nat),
      posOf (elRList els st).2 pid = some slot →
      ∀ (i : Nat) (h1 : i < els.length) (h2 : i < (elRList els st).1.length),
        els.get ⟨i, h1⟩ = SQL.param pid →
        (elRList els st).1.get ⟨i, h2⟩ = "$" ++ toString (slot + 1) := by
  intro els
  induction els with
  | nil => intro st slot _ i h1 _ _; exact absurd h1 (Nat.not_lt_zero i)
  | cons e es ih =>
      intro st slot hpos i h1 h2 hel
      match i with
      | 0 =>
          have he : e = SQL.param pid := hel
          subst he
          obtain ⟨k, hren, hk⟩ := elR_param_pos pid st
          obtain ⟨ext, hext⟩ := elRList_state_append es (elR (SQL.param pid) st).2
          have hks : posOf (elRList (SQL.param pid :: es) st).2 pid = some k := by
            rw [elRList_cons]
            simp only []
            rw [hext]
            exact posOf_append_some _ _ _ _ hk
          rw [hks] at hpos
          injection hpos with hpos
          subst hpos
          simp only [elRList_cons, List.get]
          exact hren
      | Nat.succ j =>
          rw [elRList_cons] at hpos
          have := ih (elR e st).2 slot (by simpa using hpos) j (by simpa using h1)
            (by
              rw [elRList_cons] at h2
              simpa using h2) hel
          simp only [elRList_cons, List.get]
          exact this

/-- C6: in a parsed fragment, all occurrences of the placeholder `:x`
carry one shared `ParamId`, the produced param map binds that id exactly
once, and — for any rendering state — every occurrence renders as the
same positional slot (allocated at the first occurrence and reused by
the later ones). -/
theorem c6_placeholder_dedup (s : String) (params : List (String × Value)) (x : String)
    (ts : List SQL) (idx : List (String × Nat)) (pm : List (Nat × Value)) (ptr : Nat)
    (hok : parseGo params (tokenize s) 0 [] [] = .ok (ts, idx, pm, ptr))
    (hocc : ∃ (i : Nat) (h1 : i < (tokenize s).length),
      paramTokenName ((tokenize s).get ⟨i, h1⟩) = some x) :
    ∃ pid,
      (∀ (i : Nat) (h1 : i < (tokenize s).length) (h2 : i < ts.length),
        paramTokenName ((tokenize s).get ⟨i, h1⟩) = some x →
        ts.get ⟨i, h2⟩ = SQL.param (.pnum pid)) ∧
      (pm.filter fun b => b.1 = pid).length = 1 ∧
      (∀ st : RState, ∃ slot,
        ∀ (i : Nat) (h2 : i < ts.length) (h3 : i < (elRList ts st).1.length),
          ts.get ⟨i, h2⟩ = SQL.param (.pnum pid) →
          (elRList ts st).1.get ⟨i, h3⟩ = "$" ++ toString (slot + 1)) := by
  obtain ⟨hlen, hper, hpos⟩ := parseGo_ok_spec params (tokenize s) 0 [] [] ts idx pm ptr hok
  obtain ⟨hbnd, hnd, hidx⟩ := parseGo_alloc params (tokenize s) 0 [] [] ts idx pm ptr hok
    (by intro k hk; simp at hk) (by simp) (by intro nm pid hp; simp [alookup] at hp)
  obtain ⟨i0, h10, hname0⟩ := hocc
  obtain ⟨pid, hpid, hel0⟩ := hpos i0 h10 (by rw [hlen]; exact h10) x hname0
  refine ⟨pid, ?_, ?_, ?_⟩
  · intro i h1 h2 hname
    obtain ⟨pid', hpid', hel'⟩ := hpos i h1 h2 x hname
    rw [hpid] at hpid'
    injection hpid' with hpid'
    subst hpid'
    exact hel'
  · exact filter_key_count pm pid hnd (hidx x pid hpid)
  · intro st
    obtain ⟨slot, hslot⟩ :=
      elRList_param_mem (.pnum pid) ts st i0 (by rw [hlen]; exact h10) hel0
    exact ⟨slot, fun i h2 h3 hel => elRList_render_param (.pnum pid) ts st slot hslot i h2 h3 hel⟩

/-- C6 witness at the fragment `"a = :x and b = :x"` with `x ↦ 5`. -/
theorem c6_witness :
    parseGo [("x", Value.vint 5)] (tokenize "a = :x and b = :x") 0 [] [] =
      .ok ([SQL.text "a", SQL.text " ", SQL.text "=", SQL.text " ",
            SQL.param (.pnum 0), SQL.text " ", SQL.text "and", SQL.text " ",
            SQL.text "b", SQL.text " ", SQL.text "=", SQL.text " ",
            SQL.param (.pnum 0)],
           [("x", 0)], [(0, Value.vint 5)], 1) ∧
    (∃ (i : Nat) (h1 : i < (tokenize "a = :x and b = :x").length),
      paramTokenName ((tokenize "a = :x and b = :x").get ⟨i, h1⟩) = some "x") ∧
    ∃ pid,
      (∀ (i : Nat) (h1 : i < (tokenize "a = :x and b = :x").length)
        (h2 : i < ([SQL.text "a", SQL.text " ", SQL.text "=", SQL.text " ",
            SQL.param (.pnum 0), SQL.text " ", SQL.text "and", SQL.text " ",
            SQL.text "b", SQL.text " ", SQL.text "=", SQL.text " ",
            SQL.param (.pnum 0)] : List SQL).length),
        paramTokenName ((tokenize "a = :x and b = :x").get ⟨i, h1⟩) = some "x" →
        ([SQL.text "a", SQL.text " ", SQL.text "=", SQL.text " ",
            SQL.param (.pnum 0), SQL.text " ", SQL.text "and", SQL.text " ",
            SQL.text "b", SQL.text " ", SQL.text "=", SQL.text " ",
            SQL.param (.pnum 0)] : List SQL).get ⟨i, h2⟩ = SQL.param (.pnum pid)) ∧
      (([(0, Value.vint 5)] : List (Nat × Value)).filter fun b => b.1 = pid).length = 1 ∧
      (∀ st : RState, ∃ slot,
        ∀ (i : Nat) (h2 : i < ([SQL.text "a", SQL.text " ", SQL.text "=", SQL.text " ",
            SQL.param (.pnum 0), SQL.text " ", SQL.text "and", SQL.text " ",
            SQL.text "b", SQL.text " ", SQL.text "=", SQL.text " ",
            SQL.param (.pnum 0)] : List SQL).length)
          (h3 : i < (elRList ([SQL.text "a", SQL.text " ", SQL.text "=", SQL.text " ",
            SQL.param (.pnum 0), SQL.text " ", SQL.text "and", SQL.text " ",
            SQL.text "b", SQL.text " ", SQL.text "=", SQL.text " ",
            SQL.param (.pnum 0)] : List SQL) st).1.length),
          ([SQL.text "a", SQL.text " ", SQL.text "=", SQL.text " ",
            SQL.param (.pnum 0), SQL.text " ", SQL.text "and", SQL.text " ",
            SQL.text "b", SQL.text " ", SQL.text "=", SQL.text " ",
            SQL.param (.pnum 0)] : List SQL).get ⟨i, h2⟩ = SQL.param (.pnum pid) →
          (elRList ([SQL.text "a", SQL.text " ", SQL.text "=", SQL.text " ",
            SQL.param (.pnum 0), SQL.text " ", SQL.text "and", SQL.text " ",
            SQL.text "b", SQL.text " ", SQL.text "=", SQL.text " ",
            SQL.param (.pnum 0)] : List SQL) st).1.get ⟨i, h3⟩ =
            "$" ++ toString (slot + 1)) :=
  ⟨rfl, ⟨4, by decide, by decide⟩,
    c6_placeholder_dedup "a = :x and b = :x" [("x", Value.vint 5)] "x"
      [SQL.text "a", SQL.text " ", SQL.text "=", SQL.text " ",
        SQL.param (.pnum 0), SQL.text " ", SQL.text "and", SQL.text " ",
        SQL.text "b", SQL.text " ", SQL.text "=", SQL.text " ",
        SQL.param (.pnum 0)]
      [("x", 0)] [(0, Value.vint 5)] 1 rfl ⟨4, by decide, by decide⟩⟩

theorem aset_map_fst {α β : Type} [DecidableEq α] (l : List (α × β)) (k : α) (v : β) :
    (aset l k v).map Prod.fst =
      if k ∈ l.map Prod.fst then l.map Prod.fst else l.map Prod.fst ++ [k] := by
  induction l with
  | nil => simp [aset]
  | cons p ps ih =>
      rw [aset]
      by_cases hk : p.1 = k
      · simp [hk]
      · have hne : ¬ k = p.1 := fun hh => hk hh.symm
        simp only [List.map_cons, List.mem_cons, hne, false_or, if_neg hk]
        rw [ih]
        by_cases hm : k ∈ ps.map Prod.fst <;> simp [hm]

/-- The entity map's key sequence after hydrating a row batch: each row
inserts its primary key if absent (dict-assignment order). -/
theorem hydrate_fold_keys (m : Mapping) :
    ∀ (rows : List Row) (em : List (Key × Nat)) (st : Store) (idm : IdMap),
      ((rows.foldl (hydrateRow m) (em, st, idm)).1).map Prod.fst =
        rows.foldl (fun ks r => keysIns ks (identifyRow m r).primary) (em.map Prod.fst) := by
  intro rows
  induction rows with
  | nil => intro em st idm; rfl
  | cons r rows ih =>
      intro em st idm
      rw [List.foldl_cons, List.foldl_cons]
      rcases hh : hydrateRow m (em, st, idm) r with ⟨em1, st1, idm1⟩
      have hem1 : em1 = aset em (identifyRow m r).primary
          (match idmGet idm (identifyRow m r) with
            | some e => (e, st)
            | none => newEnt st).1 := by
        rw [hydrateRow] at hh
        simp only [Prod.mk.injEq] at hh
        exact hh.1.symm
      rw [ih em1 st1 idm1, hem1, aset_map_fst, keysIns]
      by_cases hm : (identifyRow m r).primary ∈ List.map Prod.fst em
      · rw [if_pos hm, if_pos hm]
      · rw [if_neg hm, if_neg hm]

theorem keysIns_fold_mem (prim : Row → Key) (k : Key) :
    ∀ (rows : List Row) (acc : List Key), (∀ r ∈ rows, prim r = k) → k ∈ acc →
      rows.foldl (fun a r => keysIns a (prim r)) acc = acc := by
  intro rows
  induction rows with
  | nil => intro acc _ _; rfl
  | cons r rows ih =>
      intro acc hall hmem
      rw [List.foldl_cons, keysIns, hall r (List.mem_cons_self r rows), if_pos hmem]
      exact ih acc (fun r' hr' => hall r' (List.mem_cons_of_mem r hr')) hmem

theorem keysIns_fold_new (prim : Row → Key) (k : Key) :
    ∀ (rows : List Row) (acc : List Key), rows ≠ [] → (∀ r ∈ rows, prim r = k) →
      ¬ k ∈ acc →
      rows.foldl (fun a r => keysIns a (prim r)) acc = acc ++ [k] := by
  intro rows
  match rows with
  | [] => intro acc h; exact absurd rfl h
  | r :: rows =>
      intro acc _ hall hnot
      rw [List.foldl_cons, keysIns, hall r (List.mem_cons_self r rows), if_neg hnot]
      exact keysIns_fold_mem prim k rows (acc ++ [k])
        (fun r' hr' => hall r' (List.mem_cons_of_mem r hr')) (by simp)

theorem keysIns_flatMap_fold (prim : Row → Key) (rowsOf : Key → List Row) :
    ∀ (ks : List Key) (acc : List Key),
      ks.Nodup →
      (∀ k ∈ ks, ∀ r ∈ rowsOf k, prim r = k) →
      (∀ k ∈ ks, ¬ k ∈ acc) →
      (ks.flatMap rowsOf).foldl (fun a r => keysIns a (prim r)) acc =
        acc ++ ks.filter (fun k => !(rowsOf k).isEmpty) := by
  intro ks
  induction ks with
  | nil => intro acc _ _ _; simp
  | cons k ks ih =>
      intro acc hnd hall hacc
      rw [List.nodup_cons] at hnd
      rw [List.flatMap_cons, List.foldl_append]
      rcases hre : rowsOf k with _ | ⟨r0, rs⟩
      · simp only [List.foldl_nil]
        rw [List.filter_cons]
        simp only [hre, List.isEmpty_nil, Bool.not_true, Bool.false_eq_true, if_false]
        exact ih acc hnd.2 (fun k' hk' => hall k' (List.mem_cons_of_mem k hk'))
          (fun k' hk' => hacc k' (List.mem_cons_of_mem k hk'))
      · have h1 : List.foldl (fun a r => keysIns a (prim r)) acc (r0 :: rs) = acc ++ [k] := by
          rw [← hre]
          exact keysIns_fold_new prim k (rowsOf k) acc (by rw [hre]; simp)
            (hall k (List.mem_cons_self k ks))
            (hacc k (List.mem_cons_self k ks))
        rw [h1, List.filter_cons]
        simp only [hre, List.isEmpty_cons, Bool.not_false, if_true]
        have h2 : (ks.flatMap rowsOf).foldl (fun a r => keysIns a (prim r)) (acc ++ [k]) =
            (acc ++ [k]) ++ ks.filter (fun k' => !(rowsOf k').isEmpty) := by
          refine ih (acc ++ [k]) hnd.2
            (fun k' hk' => hall k' (List.mem_cons_of_mem k hk')) ?_
          intro k' hk'
          rw [List.mem_append]
          rintro (hc | hc)
          · exact hacc k' (List.mem_cons_of_mem k hk') hc
          · simp only [List.mem_singleton] at hc
            subst hc
            exact hnd.1 hk'
        rw [h2]
        simp

/-- If an association list's key sequence is a filtered, duplicate-free
subselection of `ks`, then looking each `ks` element up in order yields
exactly the association values in order. -/
theorem filterMap_alookup_align :
    ∀ (ks : List Key) (em : List (Key × Nat)) (p : Key → Bool),
      em.map Prod.fst = ks.filter p → ks.Nodup →
      ks.filterMap (fun k => alookup em k) = em.map Prod.snd ∧
      (∀ k ∈ ks, (alookup em k).isSome = p k) := by
  intro ks
  induction ks with
  | nil =>
      intro em p hfk _
      simp only [List.filter_nil] at hfk
      have : em = [] := by
        cases em with
        | nil => rfl
        | cons e es => simp at hfk
      subst this
      simp
  | cons k ks ih =>
      intro em p hfk hnd
      rw [List.nodup_cons] at hnd
      rw [List.filter_cons] at hfk
      by_cases hp : p k = true
      · rw [if_pos hp] at hfk
        match em with
        | [] => simp at hfk
        | (k0, v) :: em' =>
            rw [List.map_cons] at hfk
            injection hfk with hk0 hfk'
            subst hk0
            obtain ⟨ih1, ih2⟩ := ih em' p hfk' hnd.2
            have hhead : alookup ((k0, v) :: em') k0 = some v := by
              rw [alookup, if_pos rfl]
            have htail : ∀ k' ∈ ks, alookup ((k0, v) :: em') k' = alookup em' k' := by
              intro k' hk'
              rw [alookup, if_neg ?_]
              intro hc
              subst hc
              exact hnd.1 hk'
            refine ⟨?_, ?_⟩
            · rw [List.filterMap_cons, hhead]
              rw [List.filterMap_congr htail, ih1, List.map_cons]
            · intro k' hk'
              rcases List.mem_cons.mp hk' with hc | hc
              · subst hc
                rw [hhead, hp]
                rfl
              · rw [htail k' hc]
                exact ih2 k' hc
      · rw [if_neg hp] at hfk
        obtain ⟨ih1, ih2⟩ := ih em p hfk hnd.2
        have hnone : alookup em k = none := by
          apply alookup_none_of_not_mem_keys
          rw [hfk]
          intro hc
          exact hnd.1 (List.mem_of_mem_filter hc)
        refine ⟨?_, ?_⟩
        · rw [List.filterMap_cons, hnone, ih1]
        · intro k' hk'
          rcases List.mem_cons.mp hk' with hc | hc
          · subst hc
            rw [hnone]
            simp only [Option.isSome_none]
            exact ((Bool.not_eq_true (p k')).mp hp).symm
          · exact ih2 k' hc

/-- One step of `getGo`, exposed as an equation. -/
theorem getGo_succ (B : Backend) (f : Nat) (m : Mapping) (wc : List String)
    (keys : List Key) (st : Store) (idm : IdMap) :
    getGo B (f + 1) m wc keys st idm =
      match getChildrenGo (fun cm' w' k' st' idm' => getGo B f cm' w' k' st' idm') m
          ((B (getSelectOp m wc keys)).foldl (hydrateRow m) ([], st, idm)).1 m.children
          ((B (getSelectOp m wc keys)).foldl (hydrateRow m) ([], st, idm)).2.1
          ((B (getSelectOp m wc keys)).foldl (hydrateRow m) ([], st, idm)).2.2 with
      | none => none
      | some (trC, st2, idm2) =>
          some (((B (getSelectOp m wc keys)).foldl (hydrateRow m) ([], st, idm)).1,
                getSelectOp m wc keys :: trC, st2, idm2) := by
  rw [getGo]

/-- C3: whenever the query builder's `fetch` completes, its first backend
call is the synthesized primary-key SELECT, the second is `_get`'s load of
the returned keys, and — given the backend contract (the `_get` SELECT
returns, per key in order, that key's matching rows concatenated, with
each row identifying to its key) and distinct first-SELECT rows (the
statement GROUPs BY the primary key) — the returned entity list is the
first SELECT's key rows in order, missing keys skipped. -/
theorem c3_fetch_returns_first_select_order (B : Backend) (fuel : Nat)
    (q : QueryState) (limit offset : Value) (st : Store) (idm : IdMap)
    (rowsOf : Key → List Row) (ents : List Nat) (tr : List Op) (st' : Store) (idm' : IdMap)
    (hrun : fetchQueryGo B fuel q limit offset st idm = some (ents, tr, st', idm'))
    (hkeys : (B (fetchOp q limit offset)).Nodup)
    (hcat : B (getSelectOp q.mapping (colsOf q.mapping q.mapping.primary_key)
        (B (fetchOp q limit offset))) =
      (B (fetchOp q limit offset)).flatMap rowsOf)
    (hpk : ∀ k ∈ B (fetchOp q limit offset), ∀ r ∈ rowsOf k,
      (identifyRow q.mapping r).primary = k) :
    (∃ rest, tr = fetchOp q limit offset ::
      getSelectOp q.mapping (colsOf q.mapping q.mapping.primary_key)
        (B (fetchOp q limit offset)) :: rest) ∧
    ∃ entOf : Key → Option Nat,
      ents = (B (fetchOp q limit offset)).filterMap entOf ∧
      ∀ k ∈ B (fetchOp q limit offset), (entOf k).isSome ↔ rowsOf k ≠ [] := by
  rcases fuel with _ | f
  · rw [show fetchQueryGo B 0 q limit offset st idm = none from rfl] at hrun
    cases hrun
  · simp only [fetchQueryGo] at hrun
    rcases hg : getGo B (f + 1) q.mapping (colsOf q.mapping q.mapping.primary_key)
        (B (fetchOp q limit offset)) st idm with _ | ⟨em, tr0, st1, idm1⟩
    · rw [hg] at hrun
      cases hrun
    · rw [hg] at hrun
      simp only [Option.some.injEq, Prod.mk.injEq] at hrun
      obtain ⟨hents, htr, hst, hidm⟩ := hrun
      rw [getGo_succ] at hg
      split at hg
      · cases hg
      · rename_i trC st2 idm2 hc
        simp only [Option.some.injEq, Prod.mk.injEq] at hg
        obtain ⟨hem, htr0, _, _⟩ := hg
        have hemkeys : em.map Prod.fst =
            (B (fetchOp q limit offset)).filter
              (fun k => !(rowsOf k).isEmpty) := by
          rw [← hem]
          rw [hydrate_fold_keys]
          simp only [List.map_nil]
          rw [hcat]
          rw [keysIns_flatMap_fold (fun r => (identifyRow q.mapping r).primary) rowsOf
            (B (fetchOp q limit offset)) [] hkeys hpk (by intro k _; exact List.not_mem_nil k)]
          simp
        obtain ⟨halign, hsome⟩ := filterMap_alookup_align (B (fetchOp q limit offset)) em
          (fun k => !(rowsOf k).isEmpty) hemkeys hkeys
        refine ⟨⟨trC, ?_⟩, ?_⟩
        · rw [← htr, ← htr0]
        · refine ⟨fun k => alookup em k, ?_, ?_⟩
          · rw [← hents, ← halign]
          · intro k hk
            rw [hsome k hk]
            simp [List.isEmpty_iff]

/-- C3 witness: a two-row fetch against `wBackend` returns the entities
in the first SELECT's key order. -/
theorem c3_witness :
    fetchQueryGo wBackend 1 wQuery Value.vnull Value.vnull ⟨[], 0⟩ [] =
      some ([0, 1],
        [fetchOp wQuery Value.vnull Value.vnull,
         getSelectOp wQuery.mapping (colsOf wQuery.mapping wQuery.mapping.primary_key)
           (wBackend (fetchOp wQuery Value.vnull Value.vnull))],
        ⟨[(0, ⟨[("id", Value.vint 2)], []⟩), (1, ⟨[("id", Value.vint 1)], []⟩)], 2⟩,
        [(⟨0, [], [Value.vint 2]⟩, 0), (⟨0, [], [Value.vint 1]⟩, 1)]) ∧
    (wBackend (fetchOp wQuery Value.vnull Value.vnull)).Nodup ∧
    wBackend (getSelectOp wQuery.mapping (colsOf wQuery.mapping wQuery.mapping.primary_key)
        (wBackend (fetchOp wQuery Value.vnull Value.vnull))) =
      (wBackend (fetchOp wQuery Value.vnull Value.vnull)).flatMap (fun k => [k]) ∧
    (∀ k ∈ wBackend (fetchOp wQuery Value.vnull Value.vnull), ∀ r ∈ [k],
      (identifyRow wQuery.mapping r).primary = k) ∧
    ((∃ rest, [fetchOp wQuery Value.vnull Value.vnull,
        getSelectOp wQuery.mapping (colsOf wQuery.mapping wQuery.mapping.primary_key)
          (wBackend (fetchOp wQuery Value.vnull Value.vnull))] =
        fetchOp wQuery Value.vnull Value.vnull ::
          getSelectOp wQuery.mapping (colsOf wQuery.mapping wQuery.mapping.primary_key)
            (wBackend (fetchOp wQuery Value.vnull Value.vnull)) :: rest) ∧
      ∃ entOf : Key → Option Nat,
        ([0, 1] : List Nat) = (wBackend (fetchOp wQuery Value.vnull Value.vnull)).filterMap entOf ∧
        ∀ k ∈ wBackend (fetchOp wQuery Value.vnull Value.vnull),
          (entOf k).isSome ↔ (fun k => [k]) k ≠ []) :=
  ⟨rfl, by decide, rfl, by decide,
    c3_fetch_returns_first_select_order wBackend 1 wQuery Value.vnull Value.vnull ⟨[], 0⟩ []
      (fun k => [k]) [0, 1] _ _ _ rfl (by decide) rfl (by decide)⟩

theorem alookup_aset_self {α β : Type} [DecidableEq α] (l : List (α × β)) (k : α) (v : β) :
    alookup (aset l k v) k = some v := by
  induction l with
  | nil => simp [aset, alookup]
  | cons p ps ih =>
      rw [aset]
      by_cases hk : p.1 = k
      · rw [if_pos hk, alookup, if_pos rfl]
      · rw [if_neg hk, alookup, if_neg hk]
        exact ih

theorem alookup_aset_diff {α β : Type} [DecidableEq α] (l : List (α × β)) (k k' : α) (v : β)
    (h : ¬ k = k') : alookup (aset l k v) k' = alookup l k' := by
  induction l with
  | nil => simp [aset, alookup, h]
  | cons p ps ih =>
      rw [aset]
      by_cases hk : p.1 = k
      · rw [if_pos hk, alookup, alookup, if_neg h, if_neg (fun hc => h (hk.symm.trans hc))]
      · rw [if_neg hk, alookup, alookup]
        by_cases hk' : p.1 = k'
        · rw [if_pos hk', if_pos hk']
        · rw [if_neg hk', if_neg hk']
          exact ih

theorem getEnt_setAttr_self (st : Store) (e : Nat) (n : String) (v : Value) :
    getEnt (setAttr st e n v) e =
      { getEnt st e with attrs := aset (getEnt st e).attrs n v } := by
  unfold getEnt setAttr
  rw [alookup_aset_self]
  rfl

theorem getEnt_setAttr_other (st : Store) (e e' : Nat) (n : String) (v : Value)
    (h : ¬ e' = e) : getEnt (setAttr st e n v) e' = getEnt st e' := by
  unfold getEnt setAttr
  rw [alookup_aset_diff _ _ _ _ (fun hc => h hc.symm)]

theorem getAttr_setAttr_same (st : Store) (e : Nat) (n : String) (v : Value) :
    getAttr (setAttr st e n v) e n = v := by
  unfold getAttr
  rw [getEnt_setAttr_self]
  simp only []
  rw [alookup_aset_self]
  rfl

theorem getAttr_setAttr_diffname (st : Store) (e : Nat) (n n' : String) (v : Value)
    (h : ¬ n = n') : getAttr (setAttr st e n v) e n' = getAttr st e n' := by
  unfold getAttr
  rw [getEnt_setAttr_self]
  simp only []
  rw [alookup_aset_diff _ _ _ _ h]

theorem getAttr_setAttr_otherent (st : Store) (e e' : Nat) (n n' : String) (v : Value)
    (h : ¬ e' = e) : getAttr (setAttr st e n v) e' n' = getAttr st e' n' := by
  unfold getAttr
  rw [getEnt_setAttr_other st e e' n v h]

theorem getKids_setAttr (st : Store) (e e' : Nat) (n : String) (v : Value) (c : String) :
    getKids (setAttr st e n v) e' c = getKids st e' c := by
  unfold getKids
  by_cases he : e' = e
  · subst he
    rw [getEnt_setAttr_self]
  · rw [getEnt_setAttr_other st e e' n v he]

theorem getKids_writeRow (st : Store) (e e' : Nat) (fns : List String) (row : List Value)
    (c : String) : getKids (writeRow st e fns row) e' c = getKids st e' c := by
  unfold writeRow
  induction (fns.zip row) generalizing st with
  | nil => rfl
  | cons p ps ih => rw [List.foldl_cons, ih, getKids_setAttr]

theorem getAttr_writeRow_otherent (st : Store) (e e' : Nat) (fns : List String)
    (row : List Value) (n : String) (h : ¬ e' = e) :
    getAttr (writeRow st e fns row) e' n = getAttr st e' n := by
  unfold writeRow
  induction (fns.zip row) generalizing st with
  | nil => rfl
  | cons p ps ih => rw [List.foldl_cons, ih, getAttr_setAttr_otherent _ _ _ _ _ _ h]

theorem getAttr_writeRow_nin (st : Store) (e : Nat) (fns : List String) (row : List Value)
    (n : String) (h : ¬ n ∈ fns) :
    getAttr (writeRow st e fns row) e n = getAttr st e n := by
  induction fns generalizing row st with
  | nil => rfl
  | cons f fns ih =>
      match row with
      | [] => rfl
      | v :: vs =>
          have hn : ¬ n ∈ fns := fun hc => h (List.mem_cons_of_mem f hc)
          have hf : ¬ f = n := fun hc => h (hc ▸ List.mem_cons_self f fns)
          show getAttr (writeRow (setAttr st e f v) e fns vs) e n = getAttr st e n
          rw [ih (setAttr st e f v) vs hn, getAttr_setAttr_diffname st e f n v hf]

/-- Writing a nodup field list with equally many values reads back
exactly those values. -/
theorem writeRow_read_back (fns : List String) :
    ∀ (st : Store) (e : Nat) (row : List Value),
      fns.Nodup → fns.length = row.length →
      fns.map (getAttr (writeRow st e fns row) e) = row := by
  induction fns with
  | nil =>
      intro st e row _ hlen
      match row with
      | [] => rfl
      | v :: vs => simp at hlen
  | cons f fns ih =>
      intro st e row hnd hlen
      rw [List.nodup_cons] at hnd
      match row with
      | [] => simp at hlen
      | v :: vs =>
          have hwr : writeRow st e (f :: fns) (v :: vs) =
              writeRow (setAttr st e f v) e fns vs := rfl
          rw [hwr, List.map_cons]
          rw [getAttr_writeRow_nin _ _ _ _ _ hnd.1, getAttr_setAttr_same]
          rw [ih (setAttr st e f v) e vs hnd.2 (by simpa using hlen)]

theorem stampChildren_eq_fold (cm : Mapping) (cname : String) (m : Mapping) :
    ∀ (es : List Nat) (acc : Store × List Nat),
      es.foldl
        (fun (acc : Store × List Nat) p =>
          let eid := identifyEnt m acc.1 p
          (getKids acc.1 p cname).foldl
            (fun acc' ch => (writeRow acc'.1 ch cm.parental_key eid.primary, acc'.2 ++ [ch]))
            acc)
        acc = stampFold cm cname m es acc := by
  intro es
  induction es with
  | nil => intro acc; rfl
  | cons p rest ih =>
      intro acc
      rw [List.foldl_cons, stampFold, ih]

theorem stampInner_snd (pkeys : List String) (pk : Key) :
    ∀ (kids : List Nat) (s : Store) (l : List Nat),
      (kids.foldl (fun acc' ch => (writeRow acc'.1 ch pkeys pk, acc'.2 ++ [ch])) (s, l)).2
        = l ++ kids := by
  intro kids
  induction kids with
  | nil => intro s l; simp
  | cons ch rest ih =>
      intro s l
      rw [List.foldl_cons]
      rw [ih (writeRow s ch pkeys pk) (l ++ [ch])]
      simp

theorem stampInner_kids (pkeys : List String) (pk : Key) :
    ∀ (kids : List Nat) (s : Store) (l : List Nat) (e : Nat) (c : String),
      getKids
        (kids.foldl (fun acc' ch => (writeRow acc'.1 ch pkeys pk, acc'.2 ++ [ch])) (s, l)).1
        e c = getKids s e c := by
  intro kids
  induction kids with
  | nil => intro s l e c; rfl
  | cons ch rest ih =>
      intro s l e c
      rw [List.foldl_cons, ih, getKids_writeRow]

theorem stampInner_other (pkeys : List String) (pk : Key) :
    ∀ (kids : List Nat) (s : Store) (l : List Nat) (e : Nat) (nm : String),
      ¬ e ∈ kids →
      getAttr
        (kids.foldl (fun acc' ch => (writeRow acc'.1 ch pkeys pk, acc'.2 ++ [ch])) (s, l)).1
        e nm = getAttr s e nm := by
  intro kids
  induction kids with
  | nil => intro s l e nm _; rfl
  | cons ch rest ih =>
      intro s l e nm hn
      have hne : ¬ e = ch := fun hc => hn (by rw [hc]; exact List.mem_cons_self ch rest)
      rw [List.foldl_cons,
        ih _ _ _ _ (fun hc => hn (List.mem_cons_of_mem ch hc)),
        getAttr_writeRow_otherent _ _ _ _ _ _ hne]

theorem stampInner_stamped (pkeys : List String) (pk : Key)
    (hnd : pkeys.Nodup) (hlen : pkeys.length = pk.length) :
    ∀ (kids : List Nat) (s : Store) (l : List Nat) (ch : Nat),
      ch ∈ kids →
      pkeys.map
        (getAttr
          (kids.foldl (fun acc' ch => (writeRow acc'.1 ch pkeys pk, acc'.2 ++ [ch])) (s, l)).1
          ch) = pk := by
  intro kids
  induction kids with
  | nil => intro s l ch hc; exact absurd hc (List.not_mem_nil ch)
  | cons ch0 rest ih =>
      intro s l ch hc
      rw [List.foldl_cons]
      rcases List.mem_cons.mp hc with heq | htail
      · subst heq
        by_cases hr : ch ∈ rest
        · exact ih _ _ ch hr
        · have hpt : ∀ nm, getAttr
              (rest.foldl (fun acc' ch => (writeRow acc'.1 ch pkeys pk, acc'.2 ++ [ch]))
                (writeRow s ch pkeys pk, l ++ [ch])).1 ch nm =
              getAttr (writeRow s ch pkeys pk) ch nm :=
            fun nm => stampInner_other pkeys pk rest _ _ ch nm hr
          rw [List.map_congr_left fun nm _ => hpt nm]
          exact writeRow_read_back pkeys s ch pk hnd hlen
      · exact ih _ _ ch htail

/-- The stamping loop: it collects exactly the attached children (in
parent order), leaves every child-attachment list and every
non-child entity's attributes intact, and writes each parent's primary
key into its children's parental-key attributes. -/
theorem stampFold_spec (cm : Mapping) (cname : String) (m : Mapping)
    (es0 : List Nat) (st0 : Store)
    (hnokid : ∀ p ∈ es0, ∀ q ∈ es0, ¬ p ∈ getKids st0 q cname)
    (hdisj : ∀ p ∈ es0, ∀ q ∈ es0, ∀ ch, ch ∈ getKids st0 p cname →
      ch ∈ getKids st0 q cname → p = q)
    (hnd : cm.parental_key.Nodup)
    (hlen : ∀ p ∈ es0, cm.parental_key.length = (primaryKeyOf m st0 p).length) :
    ∀ (rest : List Nat) (s : Store) (acc : List Nat),
      (∀ p ∈ rest, p ∈ es0) →
      (∀ e c, getKids s e c = getKids st0 e c) →
      (∀ p ∈ es0, ∀ nm, getAttr s p nm = getAttr st0 p nm) →
      (stampFold cm cname m rest (s, acc)).2 =
        acc ++ rest.flatMap (fun p => getKids st0 p cname) ∧
      (∀ e c, getKids (stampFold cm cname m rest (s, acc)).1 e c = getKids st0 e c) ∧
      (∀ p ∈ es0, ∀ nm,
        getAttr (stampFold cm cname m rest (s, acc)).1 p nm = getAttr st0 p nm) ∧
      (∀ q ∈ rest, ∀ ch ∈ getKids st0 q cname,
        cm.parental_key.map (getAttr (stampFold cm cname m rest (s, acc)).1 ch) =
          primaryKeyOf m st0 q) ∧
      (∀ ch, (∀ q ∈ rest, ¬ ch ∈ getKids st0 q cname) → ∀ nm,
        getAttr (stampFold cm cname m rest (s, acc)).1 ch nm = getAttr s ch nm) := by
  intro rest
  induction rest with
  | nil =>
      intro s acc _ hkids hpar
      refine ⟨by simp [stampFold], fun e c => hkids e c, fun p hp nm => hpar p hp nm, ?_, ?_⟩
      · intro q hq; exact absurd hq (List.not_mem_nil q)
      · intro ch _ nm; rfl
  | cons p rest ih =>
      intro s acc hsub hkids hpar
      have hp0 : p ∈ es0 := hsub p (List.mem_cons_self p rest)
      have hkp : getKids s p cname = getKids st0 p cname := hkids p cname
      have hpk : (identifyEnt m s p).primary = primaryKeyOf m st0 p := by
        unfold identifyEnt primaryKeyOf
        simp only []
        exact List.map_congr_left fun nm _ => hpar p hp0 nm
      rw [stampFold]
      simp only [hkp, hpk]
      set s1 := ((getKids st0 p cname).foldl
        (fun acc' ch =>
          (writeRow acc'.1 ch cm.parental_key (primaryKeyOf m st0 p), acc'.2 ++ [ch]))
        (s, acc)).1 with hs1
      set acc1 := ((getKids st0 p cname).foldl
        (fun acc' ch =>
          (writeRow acc'.1 ch cm.parental_key (primaryKeyOf m st0 p), acc'.2 ++ [ch]))
        (s, acc)).2 with hacc1
      have hfold : ((getKids st0 p cname).foldl
          (fun acc' ch =>
            (writeRow acc'.1 ch cm.parental_key (primaryKeyOf m st0 p), acc'.2 ++ [ch]))
          (s, acc)) = (s1, acc1) := rfl
      rw [hfold]
      have hacc1v : acc1 = acc ++ getKids st0 p cname :=
        stampInner_snd cm.parental_key (primaryKeyOf m st0 p) (getKids st0 p cname) s acc
      have hkids1 : ∀ e c, getKids s1 e c = getKids st0 e c := fun e c => by
        rw [hs1, stampInner_kids]
        exact hkids e c
      have hpar1 : ∀ p' ∈ es0, ∀ nm, getAttr s1 p' nm = getAttr st0 p' nm := by
        intro p' hp' nm
        rw [hs1, stampInner_other cm.parental_key (primaryKeyOf m st0 p)
          (getKids st0 p cname) s acc p' nm (hnokid p' hp' p hp0)]
        exact hpar p' hp' nm
      have hstamp1 : ∀ ch ∈ getKids st0 p cname,
          cm.parental_key.map (getAttr s1 ch) = primaryKeyOf m st0 p := by
        intro ch hch
        rw [hs1]
        exact stampInner_stamped cm.parental_key (primaryKeyOf m st0 p) hnd
          (hlen p hp0) (getKids st0 p cname) s acc ch hch
      have huntouched1 : ∀ ch, ¬ ch ∈ getKids st0 p cname → ∀ nm,
          getAttr s1 ch nm = getAttr s ch nm := by
        intro ch hch nm
        rw [hs1]
        exact stampInner_other cm.parental_key (primaryKeyOf m st0 p)
          (getKids st0 p cname) s acc ch nm hch
      obtain ⟨ih1, ih2, ih3, ih4, ih5⟩ :=
        ih s1 acc1 (fun p' hp' => hsub p' (List.mem_cons_of_mem p hp')) hkids1 hpar1
      refine ⟨?_, ih2, ih3, ?_, ?_⟩
      · rw [ih1, hacc1v, List.flatMap_cons, List.append_assoc]
      · intro q hq ch hch
        rcases List.mem_cons.mp hq with hqe | hqt
        · subst hqe
          by_cases hcr : ∃ q' ∈ rest, ch ∈ getKids st0 q' cname
          · obtain ⟨q', hq', hch'⟩ := hcr
            have : q = q' := hdisj q hp0 q' (hsub q' (List.mem_cons_of_mem q hq')) ch hch hch'
            rw [this] at hch ⊢
            exact ih4 q' hq' ch hch'
          · push_neg at hcr
            have hpres : ∀ nm, getAttr (stampFold cm cname m rest (s1, acc1)).1 ch nm =
                getAttr s1 ch nm := fun nm => ih5 ch hcr nm
            rw [List.map_congr_left fun nm _ => hpres nm]
            exact hstamp1 ch hch
        · exact ih4 q hqt ch hch
      · intro ch hch nm
        have hch0 : ¬ ch ∈ getKids st0 p cname := hch p (List.mem_cons_self p rest)
        rw [ih5 ch (fun q' hq' => hch q' (List.mem_cons_of_mem p hq')) nm]
        exact huntouched1 ch hch0 nm

theorem stampChildren_eq (cm : Mapping) (cname : String) (m : Mapping)
    (es : List Nat) (st : Store) :
    stampChildren cm cname m es st = stampFold cm cname m es (st, []) :=
  stampChildren_eq_fold cm cname m es (st, [])

/-- One step of `saveGo`, exposed as an equation. -/
theorem saveGo_succ (B : Backend) (fuel : Nat) (m : Mapping) (es : List Nat)
    (st : Store) (idm : IdMap) :
    saveGo B (fuel + 1) m es st idm =
      match saveChildrenGo (fun cm' es' st' idm' => saveGo B fuel cm' es' st' idm')
          (fun cm' es' st' idm' => delGo B fuel cm' es' st' idm')
          m (trackedOf m idm st es) es m.children
          (insertPhase B m
            (untrackedOf m idm (updatePhase B m (trackedOf m idm st es) st).2 es)
            (updatePhase B m (trackedOf m idm st es) st).2 idm).2.1
          (insertPhase B m
            (untrackedOf m idm (updatePhase B m (trackedOf m idm st es) st).2 es)
            (updatePhase B m (trackedOf m idm st es) st).2 idm).2.2 with
      | none => none
      | some (trC, st3, idm3) =>
          some ((updatePhase B m (trackedOf m idm st es) st).1 ++
            (insertPhase B m
              (untrackedOf m idm (updatePhase B m (trackedOf m idm st es) st).2 es)
              (updatePhase B m (trackedOf m idm st es) st).2 idm).1 ++ trC, st3, idm3) := by
  rw [saveGo]

/-- C1: the observable operation order of one `_save` level.
(A) the trace is UPDATE-phase ++ INSERT-phase ++ child work, where the
UPDATE phase covers exactly the identity-map-tracked entities (pre-phase
state) and the INSERT phase the untracked ones (post-UPDATE state);
(B)/(B') each phase emits one batched statement exactly when its batch is
non-empty; (C0) the child mappings are processed in order; (C) within a
child mapping the recursive delete of the removed children is issued
before the recursive save of the attached children, both running on the
stamped store; (D) stamping writes every attached child's parental-key
attributes with its parent's primary-key values before that recursive
save runs, and `to_save` is exactly the attached children in parent
order. -/
theorem c1_save_operation_order (B : Backend) (fuel : Nat) (m : Mapping) :
    (∀ (es : List Nat) (st : Store) (idm : IdMap) (tr : List Op) (st3 : Store) (idm3 : IdMap),
      saveGo B (fuel + 1) m es st idm = some (tr, st3, idm3) →
      ∃ trC,
        tr = (updatePhase B m (trackedOf m idm st es) st).1 ++
          (insertPhase B m
            (untrackedOf m idm (updatePhase B m (trackedOf m idm st es) st).2 es)
            (updatePhase B m (trackedOf m idm st es) st).2 idm).1 ++ trC ∧
        saveChildrenGo (fun cm' es' st' idm' => saveGo B fuel cm' es' st' idm')
          (fun cm' es' st' idm' => delGo B fuel cm' es' st' idm')
          m (trackedOf m idm st es) es m.children
          (insertPhase B m
            (untrackedOf m idm (updatePhase B m (trackedOf m idm st es) st).2 es)
            (updatePhase B m (trackedOf m idm st es) st).2 idm).2.1
          (insertPhase B m
            (untrackedOf m idm (updatePhase B m (trackedOf m idm st es) st).2 es)
            (updatePhase B m (trackedOf m idm st es) st).2 idm).2.2
          = some (trC, st3, idm3)) ∧
    (∀ (toUpd : List Nat) (st0 : Store),
      (updatePhase B m toUpd st0).1 =
        if toUpd.isEmpty then [] else
          [Op.update (updateStmtOf m)
            (toUpd.map (pmapOf m st0 (m.updatable ++ m.primary_key)))]) ∧
    (∀ (toIns : List Nat) (st0 : Store) (idm0 : IdMap),
      (insertPhase B m toIns st0 idm0).1 =
        if toIns.isEmpty then [] else
          [Op.insert (insertStmtOf m) (toIns.map (pmapOf m st0 m.insertable))]) ∧
    (∀ (sRec dRec : Mapping → List Nat → Store → IdMap → Option (List Op × Store × IdMap))
      (cname : String) (cm : Mapping) (rest : List (String × Mapping))
      (toUpd es : List Nat) (st : Store) (idm : IdMap) (tr : List Op) (stx : Store)
      (idmx : IdMap),
      saveChildrenGo sRec dRec m toUpd es ((cname, cm) :: rest) st idm =
        some (tr, stx, idmx) →
      ∃ tr1 st1 idm1 tr2,
        childSave sRec dRec m cname cm toUpd es st idm = some (tr1, st1, idm1) ∧
        saveChildrenGo sRec dRec m toUpd es rest st1 idm1 = some (tr2, stx, idmx) ∧
        tr = tr1 ++ tr2) ∧
    (∀ (sRec dRec : Mapping → List Nat → Store → IdMap → Option (List Op × Store × IdMap))
      (cname : String) (cm : Mapping) (toUpd es : List Nat) (st : Store) (idm : IdMap)
      (tr : List Op) (stx : Store) (idmx : IdMap),
      childSave sRec dRec m cname cm toUpd es st idm = some (tr, stx, idmx) →
      ∃ trD trS st2 idm2,
        tr = trD ++ trS ∧
        ((removedChildren cm cname m toUpd st idm).isEmpty →
          trD = [] ∧ st2 = (stampChildren cm cname m es st).1 ∧ idm2 = idm) ∧
        (¬ (removedChildren cm cname m toUpd st idm).isEmpty →
          dRec cm (removedChildren cm cname m toUpd st idm)
            (stampChildren cm cname m es st).1 idm = some (trD, st2, idm2)) ∧
        ((stampChildren cm cname m es st).2.isEmpty → trS = [] ∧ stx = st2 ∧ idmx = idm2) ∧
        (¬ (stampChildren cm cname m es st).2.isEmpty →
          sRec cm (stampChildren cm cname m es st).2 st2 idm2 = some (trS, stx, idmx))) ∧
    (∀ (cname : String) (cm : Mapping) (es : List Nat) (st : Store),
      cm.parental_key.Nodup →
      m.primary_key.length = cm.parental_key.length →
      (∀ p ∈ es, ∀ q ∈ es, ∀ ch, ch ∈ getKids st p cname → ch ∈ getKids st q cname → p = q) →
      (∀ p ∈ es, ∀ q ∈ es, ¬ p ∈ getKids st q cname) →
      (stampChildren cm cname m es st).2 = es.flatMap (fun p => getKids st p cname) ∧
      ∀ p ∈ es, ∀ ch ∈ getKids st p cname,
        parentalKeyOf cm (stampChildren cm cname m es st).1 ch =
          primaryKeyOf m (stampChildren cm cname m es st).1 p) := by
  refine ⟨?_, ?_, ?_, ?_, ?_, ?_⟩
  · -- (A)
    intro es st idm tr st3 idm3 h
    rw [saveGo_succ] at h
    split at h
    · cases h
    · rename_i trC st3' idm3' hc
      simp only [Option.some.injEq, Prod.mk.injEq] at h
      obtain ⟨htr, hst, hidm⟩ := h
      subst hst; subst hidm
      exact ⟨trC, htr.symm, hc⟩
  · -- (B) update
    intro toUpd st0
    by_cases he : toUpd.isEmpty <;> simp [updatePhase, he]
  · -- (B') insert
    intro toIns st0 idm0
    by_cases he : toIns.isEmpty <;> simp [insertPhase, he]
  · -- (C0) children processed in order
    intro sRec dRec cname cm rest toUpd es st idm tr stx idmx h
    rw [saveChildrenGo] at h
    split at h
    · cases h
    · rename_i tr1 st1 idm1 heq1
      split at h
      · cases h
      · rename_i tr2 st2 idm2 heq2
        simp only [Option.some.injEq, Prod.mk.injEq] at h
        obtain ⟨htr, hst, hidm⟩ := h
        subst hst; subst hidm
        exact ⟨tr1, st1, idm1, tr2, heq1, heq2, htr.symm⟩
  · -- (C) delete of removed children precedes recursive save of attached
    intro sRec dRec cname cm toUpd es st idm tr stx idmx h
    rw [childSave] at h
    split at h
    · cases h
    · rename_i trD st2 idm2 heq1
      split at h
      · cases h
      · rename_i trS st3 idm3 heq2
        simp only [Option.some.injEq, Prod.mk.injEq] at h
        obtain ⟨htr, hst, hidm⟩ := h
        subst hst; subst hidm
        refine ⟨trD, trS, st2, idm2, htr.symm, ?_, ?_, ?_, ?_⟩
        · intro hD
          rw [if_pos hD] at heq1
          simp only [Option.some.injEq, Prod.mk.injEq] at heq1
          exact ⟨heq1.1.symm, heq1.2.1.symm, heq1.2.2.symm⟩
        · intro hD
          rw [if_neg hD] at heq1
          exact heq1
        · intro hS
          rw [if_pos hS] at heq2
          simp only [Option.some.injEq, Prod.mk.injEq] at heq2
          exact ⟨heq2.1.symm, heq2.2.1.symm, heq2.2.2.symm⟩
        · intro hS
          rw [if_neg hS] at heq2
          exact heq2
  · -- (D) stamping before the recursive save
    intro cname cm es st hnd hlen hdisj hnokid
    have hlen' : ∀ p ∈ es, cm.parental_key.length = (primaryKeyOf m st p).length := by
      intro p _
      unfold primaryKeyOf
      rw [List.length_map]
      exact hlen.symm
    obtain ⟨h1, h2, h3, h4, _⟩ := stampFold_spec cm cname m es st hnokid hdisj hnd hlen'
      es st [] (fun p hp => hp) (fun e c => rfl) (fun p _ nm => rfl)
    rw [stampChildren_eq]
    refine ⟨by simpa using h1, ?_⟩
    intro p hp ch hch
    have hpk : primaryKeyOf m (stampFold cm cname m es (st, [])).1 p = primaryKeyOf m st p := by
      unfold primaryKeyOf
      exact List.map_congr_left fun nm _ => h3 p hp nm
    rw [hpk]
    unfold parentalKeyOf
    exact h4 p hp ch hch

/-- C1 witness: one untracked parent with one attached child, saved
against the echoing backend `wB1`. -/
theorem c1_witness :
    (∃ tr st3 idm3, saveGo wB1 2 wParent [0] wStoreC1 [] = some (tr, st3, idm3) ∧
      ∃ trC,
        tr = (updatePhase wB1 wParent (trackedOf wParent [] wStoreC1 [0]) wStoreC1).1 ++
          (insertPhase wB1 wParent
            (untrackedOf wParent []
              (updatePhase wB1 wParent (trackedOf wParent [] wStoreC1 [0]) wStoreC1).2 [0])
            (updatePhase wB1 wParent (trackedOf wParent [] wStoreC1 [0]) wStoreC1).2 []).1
          ++ trC ∧
        saveChildrenGo (fun cm' es' st' idm' => saveGo wB1 1 cm' es' st' idm')
          (fun cm' es' st' idm' => delGo wB1 1 cm' es' st' idm')
          wParent (trackedOf wParent [] wStoreC1 [0]) [0] wParent.children
          (insertPhase wB1 wParent
            (untrackedOf wParent []
              (updatePhase wB1 wParent (trackedOf wParent [] wStoreC1 [0]) wStoreC1).2 [0])
            (updatePhase wB1 wParent (trackedOf wParent [] wStoreC1 [0]) wStoreC1).2 []).2.1
          (insertPhase wB1 wParent
            (untrackedOf wParent []
              (updatePhase wB1 wParent (trackedOf wParent [] wStoreC1 [0]) wStoreC1).2 [0])
            (updatePhase wB1 wParent (trackedOf wParent [] wStoreC1 [0]) wStoreC1).2 []).2.2
          = some (trC, st3, idm3)) ∧
    (∃ tr stx idmx,
      saveChildrenGo (fun cm' es' st' idm' => saveGo wB1 1 cm' es' st' idm')
        (fun cm' es' st' idm' => delGo wB1 1 cm' es' st' idm')
        wParent [] [0] [("kids", wChild)] wStoreC1 [] = some (tr, stx, idmx) ∧
      ∃ tr1 st1 idm1 tr2,
        childSave (fun cm' es' st' idm' => saveGo wB1 1 cm' es' st' idm')
          (fun cm' es' st' idm' => delGo wB1 1 cm' es' st' idm')
          wParent "kids" wChild [] [0] wStoreC1 [] = some (tr1, st1, idm1) ∧
        saveChildrenGo (fun cm' es' st' idm' => saveGo wB1 1 cm' es' st' idm')
          (fun cm' es' st' idm' => delGo wB1 1 cm' es' st' idm')
          wParent [] [0] [] st1 idm1 = some (tr2, stx, idmx) ∧
        tr = tr1 ++ tr2) ∧
    (∃ tr stx idmx,
      childSave (fun cm' es' st' idm' => saveGo wB1 1 cm' es' st' idm')
        (fun cm' es' st' idm' => delGo wB1 1 cm' es' st' idm')
        wParent "kids" wChild [] [0] wStoreC1 [] = some (tr, stx, idmx) ∧
      ∃ trD trS st2 idm2,
        tr = trD ++ trS ∧
        ((removedChildren wChild "kids" wParent [] wStoreC1 []).isEmpty →
          trD = [] ∧ st2 = (stampChildren wChild "kids" wParent [0] wStoreC1).1 ∧ idm2 = []) ∧
        (¬ (removedChildren wChild "kids" wParent [] wStoreC1 []).isEmpty →
          (fun cm' es' st' idm' => delGo wB1 1 cm' es' st' idm') wChild
            (removedChildren wChild "kids" wParent [] wStoreC1 [])
            (stampChildren wChild "kids" wParent [0] wStoreC1).1 [] =
            some (trD, st2, idm2)) ∧
        ((stampChildren wChild "kids" wParent [0] wStoreC1).2.isEmpty →
          trS = [] ∧ stx = st2 ∧ idmx = idm2) ∧
        (¬ (stampChildren wChild "kids" wParent [0] wStoreC1).2.isEmpty →
          (fun cm' es' st' idm' => saveGo wB1 1 cm' es' st' idm') wChild
            (stampChildren wChild "kids" wParent [0] wStoreC1).2 st2 idm2 =
            some (trS, stx, idmx))) ∧
    (wChild.parental_key.Nodup ∧
      wParent.primary_key.length = wChild.parental_key.length ∧
      (∀ p ∈ ([0] : List Nat), ∀ q ∈ ([0] : List Nat), ∀ ch,
        ch ∈ getKids wStoreC1 p "kids" → ch ∈ getKids wStoreC1 q "kids" → p = q) ∧
      (∀ p ∈ ([0] : List Nat), ∀ q ∈ ([0] : List Nat), ¬ p ∈ getKids wStoreC1 q "kids") ∧
      ((stampChildren wChild "kids" wParent [0] wStoreC1).2 =
        ([0] : List Nat).flatMap (fun p => getKids wStoreC1 p "kids") ∧
      ∀ p ∈ ([0] : List Nat), ∀ ch ∈ getKids wStoreC1 p "kids",
        parentalKeyOf wChild (stampChildren wChild "kids" wParent [0] wStoreC1).1 ch =
          primaryKeyOf wParent (stampChildren wChild "kids" wParent [0] wStoreC1).1 p)) :=
  ⟨⟨_, _, _, rfl, (c1_save_operation_order wB1 1 wParent).1 [0] wStoreC1 [] _ _ _ rfl⟩,
   ⟨_, _, _, rfl, (c1_save_operation_order wB1 1 wParent).2.2.2.1
      (fun cm' es' st' idm' => saveGo wB1 1 cm' es' st' idm')
      (fun cm' es' st' idm' => delGo wB1 1 cm' es' st' idm')
      "kids" wChild [] [] [0] wStoreC1 [] _ _ _ rfl⟩,
   ⟨_, _, _, rfl, (c1_save_operation_order wB1 1 wParent).2.2.2.2.1
      (fun cm' es' st' idm' => saveGo wB1 1 cm' es' st' idm')
      (fun cm' es' st' idm' => delGo wB1 1 cm' es' st' idm')
      "kids" wChild [] [0] wStoreC1 [] _ _ _ rfl⟩,
   by decide, by decide,
   (by
      intro p hp q hq ch h1 h2
      rw [List.mem_singleton] at hp hq
      rw [hp, hq]),
   by decide,
   (c1_save_operation_order wB1 1 wParent).2.2.2.2.2 "kids" wChild [0] wStoreC1
     (by decide) (by decide)
     (by
        intro p hp q hq ch h1 h2
        rw [List.mem_singleton] at hp hq
        rw [hp, hq])
     (by decide)⟩

end Orm1
